import Mathlib

/-!
# Verification of the ocr2 information-extraction core

Shallow embedding of the date-extraction and disambiguation engine of the
`ocr2` repository (`src/info_extractor`), together with theorems settling
the frozen claims about it.

Modelling conventions:
* Python strings are Lean `String`s / `List Char`; Python `int` values that
  are provably non-negative here (match flags, scores, indices) are `Nat`.
* A Line of a Page is modelled by its concatenated text (`line[-1]`), the
  only component the embedded code reads.
* Python dictionaries whose key set matters are association lists
  (`List (String × _)`) with dict update semantics; the fixed four-role
  score/candidate dictionaries are a four-field structure.
* A Python `Date` object is a record of its fields; object identity (used by
  the `in` operator at `finders/date.py:132`) is modelled by tagging each
  candidate with its allocation site (role, line, position in the extracted
  list), which is unique per `extract` call.
-/

namespace Ocr2

/-! ## Python string and number primitives -/

/-- Decimal digit character for `n < 10`. -/
def digitChar (n : Nat) : Char := Char.ofNat (48 + n)

/-- Fuel-driven decimal digit list of a natural number (most significant first). -/
def natDigitsAux : Nat → Nat → List Char
  | 0, _ => []
  | fuel+1, n => if n < 10 then [digitChar n] else natDigitsAux fuel (n / 10) ++ [digitChar (n % 10)]

/-- Python `str(n)` for a non-negative integer. -/
def pyNatRepr (n : Nat) : String := ⟨natDigitsAux (n + 1) n⟩

/-- Python `str.zfill(w)` for the digit strings used here: left-pad with `'0'`. -/
def zfill (w : Nat) (s : String) : String :=
  if w ≤ s.length then s else ⟨List.replicate (w - s.length) '0' ++ s.data⟩

/-- Python `int(s)` on a plain decimal digit string (the only use sites here). -/
def strToNat (s : String) : Nat := s.data.foldl (fun a c => 10 * a + (c.toNat - 48)) 0

/-- `sub` occurs in `hay` (Python `sub in hay` for non-empty `sub`). -/
def containsSub : List Char → List Char → Bool
  | [], sub => sub.isEmpty
  | hay@(_ :: t), sub => sub.isPrefixOf hay || containsSub t sub

/-- Index of the first occurrence of `sub` in `hay` (Python `hay.index(sub)`;
call sites guard occurrence, absent gives `hay.length`). -/
def subIndex : List Char → List Char → Nat
  | [], _ => 0
  | hay@(_ :: t), sub => if sub.isPrefixOf hay then 0 else subIndex t sub + 1

/-- Index of the first occurrence of character `c` (Python `hay.index(c)`). -/
def charIndex (hay : List Char) (c : Char) : Nat := subIndex hay [c]

/-- Python `hay.replace(pat, rep)` for non-empty `pat`: replace all
non-overlapping occurrences, scanning left to right (fuel-driven). -/
def replaceSubAux (pat rep : List Char) : Nat → List Char → List Char
  | 0, hay => hay
  | fuel+1, [] =>
    if pat.isPrefixOf [] then rep ++ replaceSubAux pat rep fuel [] else []
  | fuel+1, c :: t =>
    if pat.isPrefixOf (c :: t) then rep ++ replaceSubAux pat rep fuel ((c :: t).drop pat.length)
    else c :: replaceSubAux pat rep fuel t

def replaceSub (hay pat rep : List Char) : List Char :=
  replaceSubAux pat rep (hay.length + 1) hay

/-! ## `date.py` — the `Date` class -/

/-- Japanese era tags, `re_pattern.py` `DATE` keys in insertion order below. -/
inductive Era where
  | r | h | s | t | m | w
deriving DecidableEq

/-- `date.py:2` `ERA_OFFSET`. -/
def eraOffset : Era → Nat
  | .m => 1867
  | .t => 1911
  | .s => 1925
  | .h => 1988
  | .r => 2018
  | .w => 0

/-- `date.py` `Date`: fields as assigned in `__init__`. -/
structure PyDate where
  m : String
  d : String
  y : String
  jpy : Option String
deriving DecidableEq

/-- `Date.__init__(year, month, date, era)` (`date.py:42-46`). -/
def PyDate.make (year month date : String) (era : Era) : PyDate :=
  { m := month
    d := date
    y := pyNatRepr (strToNat year + eraOffset era)
    jpy := if era ≠ .w then some year else none }

/-- `Date.western_str` (`date.py:48-51`); also `__str__` and `__repr__`. -/
def PyDate.western_str (dt : PyDate) : String := dt.y ++ zfill 2 dt.m ++ zfill 2 dt.d

/-! ## A small regex engine

`re_pattern.py` compiles ordinary (non-fuzzy) regular expressions for the
date patterns; those are embedded as pattern ASTs below.  `matchR` returns
every anchored match as `(captured groups, rest of input)` in backtracking
priority order — Python's engine keeps the head of this list.  The DATE
patterns contain no nested groups, so captures concatenate left to right. -/

inductive RPat where
  | cls : (Char → Bool) → RPat
  | lit : List Char → RPat
  | alt : List RPat → RPat
  | seqn : List RPat → RPat
  | group : RPat → RPat
  | star : (Char → Bool) → RPat
  | eos : RPat

/-- Greedy `c*` of a character class: longest run first. -/
def starOpts (p : Char → Bool) (s : List Char) : List (List String × List Char) :=
  let run := (s.takeWhile p).length
  ((List.range (run + 1)).reverse).map (fun k => ([], s.drop k))

mutual

def matchR : RPat → List Char → List (List String × List Char)
  | .cls p, s =>
    match s with
    | [] => []
    | c :: t => if p c then [([], t)] else []
  | .lit l, s => if l.isPrefixOf s then [([], s.drop l.length)] else []
  | .alt ps, s => matchAlt ps s
  | .seqn ps, s => matchSeq ps s
  | .group p, s =>
    (matchR p s).map (fun pr => (⟨s.take (s.length - pr.2.length)⟩ :: pr.1, pr.2))
  | .star p, s => starOpts p s
  | .eos, s =>
    match s with
    | [] => [([], [])]
    | _ :: _ => []

def matchAlt : List RPat → List Char → List (List String × List Char)
  | [], _ => []
  | p :: ps, s => matchR p s ++ matchAlt ps s

def matchSeq : List RPat → List Char → List (List String × List Char)
  | [], s => [([], s)]
  | p :: ps, s =>
    (matchR p s).flatMap (fun pr => (matchSeq ps pr.2).map (fun qr => (pr.1 ++ qr.1, qr.2)))

end

/-- `pattern.findall(text)` scan: try an anchored match at each position,
left to right; on success record the head solution's groups and continue
after the consumed text (one char forward for an empty-width match, i.e.
the scan continues at the tail, or stops at the end of input). -/
def refindallGo (p : RPat) : Nat → List Char → List (List String)
  | 0, _ => []
  | _+1, [] =>
    match matchR p [] with
    | [] => []
    | (caps, _) :: _ => [caps]
  | fuel+1, c :: t =>
    match matchR p (c :: t) with
    | [] => refindallGo p fuel t
    | (caps, rest) :: _ =>
      if (c :: t).length - rest.length = 0 then caps :: refindallGo p fuel t
      else caps :: refindallGo p fuel rest

def refindall (p : RPat) (s : List Char) : List (List String) :=
  refindallGo p (s.length + 1) s

/-- `p?` (greedy optional single character). -/
def optP (p : Char → Bool) : RPat := .alt [.cls p, .seqn []]

/-! ## `re_pattern.py` — the `DATE` patterns -/

def clsRange (lo hi : Char) : Char → Bool := fun c => lo ≤ c && c ≤ hi

/-- `[1-9]` -/
def d19 : Char → Bool := clsRange '1' '9'

/-- `[0-9]` (also `\d`) -/
def d09 : Char → Bool := clsRange '0' '9'

/-- `\D` -/
def clNonD : Char → Bool := fun c => !c.isDigit

/-- `[\D-]` -/
def clNonDDash : Char → Bool := fun c => !c.isDigit || c = '-'

/-- `([\D-]{1,3})` -/
def sepG1 : RPat := .group (.seqn [.cls clNonDDash, optP clNonDDash, optP clNonDDash])

/-- `(0[1-9]|[1-9]|1[0-2])` -/
def monthG : RPat :=
  .group (.alt [.seqn [.lit ['0'], .cls d19], .cls d19, .seqn [.lit ['1'], .cls (clsRange '0' '2')]])

/-- `([\D-])` -/
def sepG2 : RPat := .group (.cls clNonDDash)

/-- `(0[1-9]|[1-9]|[1-2][0-9]0*|3[0-1]0*|99)` -/
def dayG : RPat :=
  .group (.alt [
    .seqn [.lit ['0'], .cls d19],
    .cls d19,
    .seqn [.cls (clsRange '1' '2'), .cls d09, .star (· = '0')],
    .seqn [.lit ['3'], .cls (clsRange '0' '1'), .star (· = '0')],
    .lit ['9', '9']])

/-- `(\D|$)` -/
def endG : RPat := .group (.alt [.cls clNonD, .eos])

/-- `re_pattern.py:84` `MONTH_DATE`. -/
def monthDatePats : List RPat := [sepG1, monthG, sepG2, dayG, endG]

/-- `(令和|合和|令)` -/
def markerR : RPat := .group (.alt [.lit "令和".data, .lit "合和".data, .lit "令".data])

/-- `(0[1-9]|[1-9]|[1-9][0-9])` -/
def yearR : RPat :=
  .group (.alt [.seqn [.lit ['0'], .cls d19], .cls d19, .seqn [.cls d19, .cls d09]])

/-- `(平成|平|成)` -/
def markerH : RPat := .group (.alt [.lit "平成".data, .lit "平".data, .lit "成".data])

/-- `(0[1-9]|[1-9]|[1-4][0-9])` -/
def yearH : RPat :=
  .group (.alt [.seqn [.lit ['0'], .cls d19], .cls d19, .seqn [.cls (clsRange '1' '4'), .cls d09]])

/-- `(昭和|昭)` -/
def markerS : RPat := .group (.alt [.lit "昭和".data, .lit "昭".data])

/-- `(0[1-9]|[1-9]|[1-5][0-9]|6[0-4])` -/
def yearS : RPat :=
  .group (.alt [.seqn [.lit ['0'], .cls d19], .cls d19,
    .seqn [.cls (clsRange '1' '5'), .cls d09], .seqn [.lit ['6'], .cls (clsRange '0' '4')]])

/-- `(大正|大|正)` -/
def markerT : RPat := .group (.alt [.lit "大正".data, .lit "大".data, .lit "正".data])

/-- `(0[1-9]|[1-9]|1[0-5])` -/
def yearT : RPat :=
  .group (.alt [.seqn [.lit ['0'], .cls d19], .cls d19, .seqn [.lit ['1'], .cls (clsRange '0' '5')]])

/-- `(明治|明|治)` -/
def markerM : RPat := .group (.alt [.lit "明治".data, .lit "明".data, .lit "治".data])

/-- `(0[1-9]|[1-9]|[1-3][0-9]|4[0-5])` -/
def yearM : RPat :=
  .group (.alt [.seqn [.lit ['0'], .cls d19], .cls d19,
    .seqn [.cls (clsRange '1' '3'), .cls d09], .seqn [.lit ['4'], .cls (clsRange '0' '5')]])

/-- `(19[0-9]{2}|2[0-9]{3})` -/
def yearW : RPat :=
  .group (.alt [.seqn [.lit "19".data, .cls d09, .cls d09],
    .seqn [.lit ['2'], .cls d09, .cls d09, .cls d09]])

/-- `re_pattern.py:87-94` `DATE` — one pattern per era.  The `r` pattern has
an uncaptured `\D?` between marker and year. -/
def datePat : Era → RPat
  | .r => .seqn ([markerR, optP clNonD, yearR] ++ monthDatePats)
  | .h => .seqn ([markerH, yearH] ++ monthDatePats)
  | .s => .seqn ([markerS, yearS] ++ monthDatePats)
  | .t => .seqn ([markerT, yearT] ++ monthDatePats)
  | .m => .seqn ([markerM, yearM] ++ monthDatePats)
  | .w => .seqn ([yearW] ++ monthDatePats)

/-- Insertion order of the `DATE` dict. -/
def eraOrder : List Era := [.r, .h, .s, .t, .m, .w]

/-! ## `extract.py` — `clean_date` and `get_date` -/

/-- `LAST_DAY.sub("99日", ·)` for `LAST_DAY = [末未][日目]` (`re_pattern.py:97`):
left-to-right non-overlapping class-pair replacement. -/
def lastDaySubAux : Nat → List Char → List Char
  | 0, hay => hay
  | _+1, [] => []
  | _+1, [a] => [a]
  | fuel+1, a :: b :: t =>
    if (a = '末' || a = '未') && (b = '日' || b = '目') then
      '9' :: '9' :: '日' :: lastDaySubAux fuel t
    else a :: lastDaySubAux fuel (b :: t)

def lastDaySub (hay : List Char) : List Char := lastDaySubAux (hay.length + 1) hay

/-- `extract.py:28-39` `clean_date`. -/
def clean_date (text : String) : String :=
  ⟨lastDaySub (replaceSub text.data "元年".data "1年".data)⟩

/-- Python `str.isdigit` on the strings arising here. -/
def pyIsdigit (s : String) : Bool := !s.data.isEmpty && s.data.all Char.isDigit

/-- `extract.py:42-62` `get_date`: clean the text, then for each era pattern
(dict order) collect all matches; group 0 digit-initial selects the western
group layout, otherwise the era-marker layout. -/
def get_date (text : String) : List PyDate :=
  let t := clean_date text
  eraOrder.foldl (fun acc era =>
    acc ++ (refindall (datePat era) t.data).map (fun gs =>
      if pyIsdigit (gs.getD 0 "") then
        PyDate.make (gs.getD 0 "") (gs.getD 2 "") (gs.getD 4 "") era
      else
        PyDate.make (gs.getD 1 "") (gs.getD 3 "") (gs.getD 5 "") era)) []

/-! ## `match.py` — line scoring and `valid_from_match`

A match function takes a line's text and returns `(flag, cut text)` where
the flag is the Python truth value passed through `int(...)`: `False ↦ 0`,
`True ↦ 1`, and the literal `2` returned by some branches of
`valid_from_match` / `valid_until_match` stays `2`. -/

/-- `match.py:227-260` `score`.  `no_ext = true` returns the raw flags;
otherwise `scores_ext = 2*scores; scores_ext[:-1] += scores[1:];
scores_ext[1:] += scores[:-1]`. -/
def scoreLines (mf : String → Nat × String) (texts : List String) (no_ext : Bool) :
    List Nat × List String :=
  let results := texts.map mf
  let scores := results.map Prod.fst
  let cuts := results.map Prod.snd
  if no_ext then (scores, cuts)
  else
    ((List.range scores.length).map (fun i =>
      2 * scores.getD i 0 + scores.getD (i + 1) 0 + (if i = 0 then 0 else scores.getD (i - 1) 0)),
      cuts)

/-- `re.search("自(?!己)", s)` succeeds: some `自` not followed by `己`. -/
def hasJiNotKo : List Char → Bool
  | [] => false
  | '自' :: t =>
    (match t with
     | '己' :: _ => hasJiNotKo t
     | _ => true)
  | _ :: t => hasJiNotKo t

/-- `match.py:95-125` `valid_from_match`.  The final regex fallback
`match_one(VALID_FROM, text)` uses the external fuzzy-regex library; it is
passed in as `fb`, returning the span start of the first match if any.
Every branch before it is modelled exactly; `か.$` matches iff the
second-to-last character is `か`, with span start `len - 2`. -/
def valid_from_match (fb : String → Option Nat) (text : String) : Nat × String :=
  let cs := text.data
  if containsSub cs "まで".data && (get_date text).length = 1 then (0, text)
  else if containsSub cs "迄".data && (get_date text).length = 1 then (0, text)
  else if hasJiNotKo cs then (2, ⟨cs.drop (charIndex cs '自' + 1)⟩)
  else if 2 ≤ cs.length && cs.getD (cs.length - 2) ' ' = 'か' then (2, ⟨cs.take (cs.length - 2)⟩)
  else if containsSub cs "から".data then (2, ⟨cs.take (subIndex cs "から".data)⟩)
  else if 2 < cs.length && cs.getD (cs.length - 2) ' ' = 'か' then (2, ⟨cs.take (charIndex cs 'か')⟩)
  else if "日か".data.isSuffixOf cs then (2, ⟨cs.take (cs.length - 2)⟩)
  else
    match fb text with
    | some st => (1, ⟨cs.drop st⟩)
    | none => (0, text)

/-! ## `finders/date.py` — the `DatesFinder`

The finder is configured with four match methods; the key order of the
`match_methods` dict follows the class docstring's usage example
(`Birthday`, `YukoEdYmd`, `YukoStYmd`, `KofuYmd`) — the preset file that
instantiates it is not part of the sources.  The extract method (`get_date`
per the docstring) is a parameter `exf`; each value it returns becomes a
fresh Python object, modelled by a `Cand` carrying its allocation site. -/

inductive Role where
  | Birthday | YukoEdYmd | YukoStYmd | KofuYmd
deriving DecidableEq

def Role.name : Role → String
  | .Birthday => "Birthday"
  | .YukoEdYmd => "YukoEdYmd"
  | .YukoStYmd => "YukoStYmd"
  | .KofuYmd => "KofuYmd"

/-- `match_methods` key order (class docstring usage example). -/
def roleOrder : List Role := [.Birthday, .YukoEdYmd, .YukoStYmd, .KofuYmd]

/-- A dict with exactly the four role keys. -/
structure RoleMap (α : Type) where
  birthday : α
  yukoEd : α
  yukoSt : α
  kofu : α
deriving DecidableEq

def RoleMap.get (m : RoleMap α) : Role → α
  | .Birthday => m.birthday
  | .YukoEdYmd => m.yukoEd
  | .YukoStYmd => m.yukoSt
  | .KofuYmd => m.kofu

def RoleMap.set (m : RoleMap α) : Role → α → RoleMap α
  | .Birthday, v => { m with birthday := v }
  | .YukoEdYmd, v => { m with yukoEd := v }
  | .YukoStYmd, v => { m with yukoSt := v }
  | .KofuYmd, v => { m with kofu := v }

/-- A `Date` object in `dates_all`: allocation site (role, line, position in
the list returned by one `extract_f` call) plus the field values.  Two
`Cand`s are `=` exactly when Python's default `==` (object identity) holds,
since each allocation site is used once per `extract` call. -/
structure Cand where
  rid : Role
  line : Nat
  pos : Nat
  val : PyDate
deriving DecidableEq

/-- `str(d)` on a candidate (`Date.__str__` is `western_str`). -/
def candStr (c : Cand) : String := c.val.western_str

/-- Python `str(list_of_dates)`: `repr` of each element, comma-joined in
brackets (`Date.__repr__` is `western_str`). -/
def pyStrList (l : List Cand) : String :=
  "[" ++ String.intercalate ", " (l.map candStr) ++ "]"

/-- Python dict with string keys: association list, first binding of a key
is its value, assignment updates in place or appends. -/
def dictFind {α : Type} : List (String × α) → String → Option α
  | [], _ => none
  | (k, v) :: t, key => if k = key then some v else dictFind t key

/-- `d[key] = v`. -/
def dictSet {α : Type} : List (String × α) → String → α → List (String × α)
  | [], key, v => [(key, v)]
  | (k, w) :: t, key, v => if k = key then (k, v) :: t else (k, w) :: dictSet t key v

/-- `self.info` of the `DatesFinder`: values are `Date` objects or `None`. -/
abbrev PyDict := List (String × Option Cand)

/-- `d.get(key, None)`. -/
def pyGetNone (d : PyDict) (key : String) : Option Cand := (dictFind d key).getD none

/-- `key in d`. -/
def hasKey (d : PyDict) (key : String) : Bool := (dictFind d key).isSome

/-- Mutable state of one `extract` call after scoring: the `self.scores`,
`dates_all` and `self.info` objects.  `cuts` is `self.texts`. -/
structure FState where
  sc : RoleMap (List Nat)
  da : RoleMap (List (List Cand))
  info : PyDict
deriving DecidableEq

/-! ### Scoring (`_score`, `finders/date.py:67-88`) -/

/-- Initial per-role scoring: `no_ext=(tag != "Birthday")`, i.e. Birthday is
scored with neighbor extension and the other three roles without. -/
def scoresPre (mfs : RoleMap (String → Nat × String)) (texts : List String) :
    RoleMap (List Nat × List String) :=
  { birthday := scoreLines (mfs.get .Birthday) texts false
    yukoEd := scoreLines (mfs.get .YukoEdYmd) texts true
    yukoSt := scoreLines (mfs.get .YukoStYmd) texts true
    kofu := scoreLines (mfs.get .KofuYmd) texts true }

/-- `_score` including the `YukoEdYmd` exception (`finders/date.py:82-88`):
if the just-computed `YukoEdYmd` scores sum to 1 over the first two lines,
rescore it with `no_ext=False` (extension on). -/
def scoreAll (mfs : RoleMap (String → Nat × String)) (texts : List String) :
    RoleMap (List Nat) × RoleMap (List String) :=
  let pre := scoresPre mfs texts
  let ed :=
    if ((pre.get .YukoEdYmd).1.take 2).sum = 1 then scoreLines (mfs.get .YukoEdYmd) texts false
    else pre.get .YukoEdYmd
  let m := pre.set .YukoEdYmd ed
  ({ birthday := (m.get .Birthday).1, yukoEd := (m.get .YukoEdYmd).1
     yukoSt := (m.get .YukoStYmd).1, kofu := (m.get .KofuYmd).1 },
   { birthday := (m.get .Birthday).2, yukoEd := (m.get .YukoEdYmd).2
     yukoSt := (m.get .YukoStYmd).2, kofu := (m.get .KofuYmd).2 })

/-! ### Candidate extraction (`finders/date.py:105-111`) -/

/-- One role's row of `dates_all`: extract from the cut text of every line
with positive score; each returned object gets its allocation site. -/
def buildCells (exf : String → List PyDate) (r : Role) (scores : List Nat)
    (cuts : List String) : List (List Cand) :=
  (List.range scores.length).map (fun i =>
    if 0 < scores.getD i 0 then
      (exf (cuts.getD i "")).enum.map (fun pd => Cand.mk r i pd.1 pd.2)
    else [])

def buildDatesAll (exf : String → List PyDate) (sc : RoleMap (List Nat))
    (cuts : RoleMap (List String)) : RoleMap (List (List Cand)) :=
  { birthday := buildCells exf .Birthday (sc.get .Birthday) (cuts.get .Birthday)
    yukoEd := buildCells exf .YukoEdYmd (sc.get .YukoEdYmd) (cuts.get .YukoEdYmd)
    yukoSt := buildCells exf .YukoStYmd (sc.get .YukoStYmd) (cuts.get .YukoStYmd)
    kofu := buildCells exf .KofuYmd (sc.get .KofuYmd) (cuts.get .KofuYmd) }

/-! ### Date match NMS (`finders/date.py:113-132`) -/

/-- The `for key, cur_score in self.scores.items()` loop with its `break`:
skip roles scoring `< 2` on line `i`; the first one found becomes
`key_keep` with `suppress=True`; a second one resets `suppress` and breaks. -/
def nmsScan (f : Role → Nat) : List Role → Option Role → Bool → Option Role × Bool
  | [], kk, sup => (kk, sup)
  | r :: rs, kk, sup =>
    if f r < 2 then nmsScan f rs kk sup
    else if sup then (kk, false)
    else nmsScan f rs (some r) true

def nmsClaim (sc : RoleMap (List Nat)) (i : Nat) : Option Role × Bool :=
  nmsScan (fun r => (sc.get r).getD i 0) roleOrder none false

/-- `dates_all[key][idx] = [d1 for d1 in dates1 if d1 not in dates2]` for
every index of the zip (indices beyond the shorter list stay untouched):
`not in` is Python `==`, object identity on `Date` instances, i.e. `Cand`
equality. -/
def nmsFilter (cells keepCells : List (List Cand)) : List (List Cand) :=
  List.zipWith (fun d1s d2s => d1s.filter (fun d1 => decide (d1 ∉ d2s))) cells keepCells
    ++ cells.drop keepCells.length

/-- The body of the per-line NMS loop (`finders/date.py:114-132`). -/
def nmsLine (sc : RoleMap (List Nat)) (da : RoleMap (List (List Cand))) (i : Nat) :
    RoleMap (List (List Cand)) :=
  match nmsClaim sc i with
  | (some keep, true) =>
    roleOrder.foldl (fun da key =>
      if key = keep then da
      else if (da.get key).isEmpty then da
      else da.set key (nmsFilter (da.get key) (da.get keep))) da
  | _ => da

def nmsPass (n : Nat) (sc : RoleMap (List Nat)) (da0 : RoleMap (List (List Cand))) :
    RoleMap (List (List Cand)) :=
  (List.range n).foldl (nmsLine sc) da0

/-! ### One-time fixups (`finders/date.py:135-150`) -/

/-- Suppress `YukoStYmd` where `YukoEdYmd`'s line also has a positive
`KofuYmd` score and fewer than 3 candidates: zero the score, clear the cell. -/
def fixupA (n : Nat) (sc : RoleMap (List Nat)) (da : RoleMap (List (List Cand))) :
    RoleMap (List Nat) × RoleMap (List (List Cand)) :=
  (List.range n).foldl (fun p idx =>
    let dates := (p.2.get .YukoEdYmd).getD idx []
    if (p.1.get .YukoStYmd).getD idx 0 ≠ 0 && (p.1.get .KofuYmd).getD idx 0 ≠ 0 &&
        dates.length < 3 then
      (p.1.set .YukoStYmd ((p.1.get .YukoStYmd).set idx 0),
       p.2.set .YukoStYmd ((p.2.get .YukoStYmd).set idx []))
    else p) (sc, da)

/-- Two dates on a `YukoEdYmd` line with positive `YukoStYmd` and zero
`KofuYmd` score: assign the pair, swapping when out of string order. -/
def fixupB (n : Nat) (sc : RoleMap (List Nat)) (da : RoleMap (List (List Cand)))
    (info0 : PyDict) : PyDict :=
  (List.range n).foldl (fun info idx =>
    match (da.get .YukoEdYmd).getD idx [] with
    | [d0, d1] =>
      if (sc.get .YukoStYmd).getD idx 0 > 0 && (sc.get .KofuYmd).getD idx 0 = 0 then
        let info := dictSet (dictSet info "YukoStYmd" (some d0)) "YukoEdYmd" (some d1)
        if candStr d1 < candStr d0 then
          dictSet (dictSet info "YukoStYmd" (some d1)) "YukoEdYmd" (some d0)
        else info
      else info
    | _ => info) info0

/-! ### Iterative threshold assignment (`finders/date.py:152-169`) -/

/-- `np.max` of a non-negative integer array (call sites have it non-empty). -/
def listMax (l : List Nat) : Nat := l.foldr max 0

/-- `np.argmax`: first index attaining the maximum. -/
def listArgmax (l : List Nat) : Nat := (l.findIdx? (· = listMax l)).getD 0

/-- `len(scores[scores == val_max])`. -/
def countMax (l : List Nat) : Nat := (l.filter (· = listMax l)).length

/-- The inner `for other_key in ...` body (`finders/date.py:165-169`): pop
every candidate whose `str` equals `cstr` out of role `ok`'s cell on line
`idxMax`.  `set(self.scores.keys()) - set(key)` subtracts the set of the
*characters* of the key string, which removes none of the four key strings,
so this runs for all four roles — including `key`'s own cell. -/
def popCell (idxMax : Nat) (cstr : String) (da : RoleMap (List (List Cand))) (ok : Role) :
    RoleMap (List (List Cand)) :=
  let od := (da.get ok).getD idxMax []
  if od.isEmpty then da
  else da.set ok ((da.get ok).set idxMax (od.filter (fun d => candStr d ≠ cstr)))

/-- The body of `for key in self.scores` (`finders/date.py:157-169`) for one
role: assign when the maximum score reaches the threshold, is attained on a
single line, and one candidate remains there. -/
def processRole (th : Nat) (st : FState) (key : Role) : FState :=
  if pyGetNone st.info key.name ≠ none then st
  else
    let scores := st.sc.get key
    let valMax := listMax scores
    let idxMax := listArgmax scores
    if th ≤ valMax && countMax scores = 1 && ((st.da.get key).getD idxMax []).length = 1 then
      match ((st.da.get key).getD idxMax []).head? with
      | some c =>
        { st with info := dictSet st.info key.name (some c)
                  da := roleOrder.foldl (popCell idxMax (candStr c)) st.da }
      | none => st
    else st

def step5Pass (th : Nat) (st : FState) : FState := roleOrder.foldl (processRole th) st

/-- The `while not all([np.all(scores_prev.get(k, None) == v) ...])` loop:
`scores_prev` starts as the empty dict (guard true), the body copies
`self.scores` and runs one pass; the guard then compares the copy with
`self.scores`, which the pass never writes, so the loop exits — fuel 2 is
exact (`step5While_eq_pass` below). -/
def step5WhileGo (th : Nat) : Nat → Option (RoleMap (List Nat)) → FState → FState
  | 0, _, st => st
  | fuel+1, prev, st =>
    if prev = some st.sc then st
    else step5WhileGo th fuel (some st.sc) (step5Pass th st)

def step5AtTh (th : Nat) (st : FState) : FState := step5WhileGo th 2 none st

/-- `np.max(list(self.scores.values()))`. -/
def maxScoreAll (sc : RoleMap (List Nat)) : Nat :=
  listMax (sc.get .Birthday ++ sc.get .YukoEdYmd ++ sc.get .YukoStYmd ++ sc.get .KofuYmd)

/-- `for th in np.arange(maxScore, 0, -1)`. -/
def thresholds (m : Nat) : List Nat := ((List.range m).reverse).map (· + 1)

def step5 (st : FState) : FState :=
  (thresholds (maxScoreAll st.sc)).foldl (fun st th => step5AtTh th st) st

/-! ### Same-line pair handling (`finders/date.py:171-191`) -/

/-- `YukoStYmd`/`YukoEdYmd` both unassigned (key-presence test) and their
best lines hold string-equal two-element candidate lists. -/
def step6 (st : FState) : FState :=
  if !hasKey st.info "YukoStYmd" && !hasKey st.info "YukoEdYmd" then
    let idxFrom := listArgmax (st.sc.get .YukoStYmd)
    let idxUntil := listArgmax (st.sc.get .YukoEdYmd)
    let datesFrom := (st.da.get .YukoStYmd).getD idxFrom []
    let datesUntil := (st.da.get .YukoEdYmd).getD idxUntil []
    if pyStrList datesFrom = pyStrList datesUntil && datesFrom.length = 2 then
      match datesFrom with
      | [d0, d1] =>
        { st with info := dictSet (dictSet st.info "YukoStYmd" (some d0)) "YukoEdYmd" (some d1) }
      | _ => st
    else st
  else st

/-- `YukoEdYmd`/`KofuYmd` both `None` (value test): scan lines with positive
`KofuYmd` score holding two candidates for each; assign the `KofuYmd` pair,
swapping into string order. -/
def step7 (st : FState) : FState :=
  if (pyGetNone st.info "YukoEdYmd").isNone && (pyGetNone st.info "KofuYmd").isNone then
    let info' := (List.range (st.sc.get .YukoEdYmd).length).foldl (fun info idx =>
      if (st.sc.get .KofuYmd).getD idx 0 > 0 &&
          ((st.da.get .YukoEdYmd).getD idx []).length = 2 &&
          ((st.da.get .KofuYmd).getD idx []).length = 2 then
        match (st.da.get .KofuYmd).getD idx [] with
        | [k0, k1] =>
          let info := dictSet (dictSet info "KofuYmd" (some k0)) "YukoEdYmd" (some k1)
          if candStr k1 < candStr k0 then
            dictSet (dictSet info "KofuYmd" (some k1)) "YukoEdYmd" (some k0)
          else info
        | _ => info
      else info) st.info
    { st with info := info' }
  else st

/-! ### Fallback (`finders/date.py:193-201`) -/

/-- Stable insertion of index `i` into a descending-score index list, after
all indices with score `≥` its own: `(-scores).argsort(kind="mergesort")`. -/
def insDesc (s : List Nat) (i : Nat) : List Nat → List Nat
  | [] => [i]
  | j :: t => if s.getD j 0 < s.getD i 0 then i :: j :: t else j :: insDesc s i t

def argsortDesc (s : List Nat) : List Nat :=
  (List.range s.length).foldl (fun acc i => insDesc s i acc) []

/-- Stable insertion ascending by `candStr`: `sorted(cell, key=str)`. -/
def insStr (c : Cand) : List Cand → List Cand
  | [] => [c]
  | d :: t => if candStr c < candStr d then c :: d :: t else d :: insStr c t

def sortByStr (l : List Cand) : List Cand := l.foldl (fun acc c => insStr c acc) []

/-- One role of the fallback loop: first index in descending-score order
(stable) whose cell is non-empty; Birthday sorts the cell by string first;
the head is popped into `info`. -/
def fallbackRole (st : FState) (key : Role) : FState :=
  if pyGetNone st.info key.name ≠ none then st
  else
    match (argsortDesc (st.sc.get key)).find?
        (fun idx => !((st.da.get key).getD idx []).isEmpty) with
    | none => st
    | some idx =>
      let cell0 := (st.da.get key).getD idx []
      let cell := if key = .Birthday then sortByStr cell0 else cell0
      match cell with
      | c :: rest =>
        { st with info := dictSet st.info key.name (some c)
                  da := st.da.set key ((st.da.get key).set idx rest) }
      | [] => st

def fallbackStep (st : FState) : FState := roleOrder.foldl fallbackRole st

/-! ### Finalization and the whole `extract` (`finders/date.py:90-206`) -/

/-- `for tag in self.match_methods: if tag not in self.info: self.info[tag] = None`. -/
def finalize (info : PyDict) : PyDict :=
  roleOrder.foldl (fun info r => if hasKey info r.name then info else dictSet info r.name none) info

/-- The state handed to step 5: scores and candidates after NMS and the two
fixups, plus the `info` entries the second fixup may have written. -/
def preState (mfs : RoleMap (String → Nat × String)) (exf : String → List PyDate)
    (texts : List String) : FState :=
  let p := scoreAll mfs texts
  let n := texts.length
  let da1 := nmsPass n p.1 (buildDatesAll exf p.1 p.2)
  let q := fixupA n p.1 da1
  ⟨q.1, q.2, fixupB n q.1 q.2 []⟩

/-- The pipeline of `extract` after scoring, on a non-empty page. -/
def extractCore (mfs : RoleMap (String → Nat × String)) (exf : String → List PyDate)
    (texts : List String) : FState :=
  let st := fallbackStep (step7 (step6 (step5 (preState mfs exf texts))))
  { st with info := finalize st.info }

/-- `DatesFinder.extract`: `none` models the `ValueError` that
`np.max(list(self.scores.values()))` raises on an empty page
(`finders/date.py:153`); every other partial operation in the method is
guarded, so a non-empty page always yields a field map. -/
def extract (mfs : RoleMap (String → Nat × String)) (exf : String → List PyDate)
    (texts : List String) : Option PyDict :=
  if texts.isEmpty then none else some (extractCore mfs exf texts).info

/-- The instance state touched by `extract`: `self.scores`, `self.texts`,
`self.info`. -/
structure DatesFinderState where
  scores : RoleMap (List Nat)
  textsF : RoleMap (List String)
  info : PyDict
deriving DecidableEq

/-- `extract` threading the instance state: lines 100-101 reset
`self.texts` and `self.info`, and `_score` reassigns every key of
`self.scores` before any read, so the incoming state is dead. -/
def extractS (_st0 : DatesFinderState) (mfs : RoleMap (String → Nat × String))
    (exf : String → List PyDate) (texts : List String) :
    DatesFinderState × Option PyDict :=
  let p := scoreAll mfs texts
  if texts.isEmpty then ({ scores := p.1, textsF := p.2, info := [] }, none)
  else
    let c := extractCore mfs exf texts
    ({ scores := c.sc, textsF := p.2, info := c.info }, some c.info)

/-! ## `kouhi_analyzer.py` — fallback corrections

`fit` first runs the configured finders (`_finder_fit`) and merges their
outputs into `self.info`, then runs `_handle_nums`, `_handle_kigo` and
`_handle_multi_dates` in that order.  The analyzer's `self.info` is
modelled as a dict whose values are display strings (the handlers below
only write and null-test values, never inspect them). -/

/-- Analyzer field map. -/
abbrev ADict := List (String × Option String)

/-- `AnalyzerBase._have`: `self.info.get(tag, None) is not None`. -/
def aHave (info : ADict) (tag : String) : Bool := ((dictFind info tag).getD none).isSome

/-- `kouhi_analyzer.py:10-18` `date_tags`. -/
def dateTags : List String := ["入院", "入院外", "外来", "通院", "調剤", "無", "1割"]

/-- `kouhi_analyzer.py:51-65` `_handle_nums`.  The two pattern matchers
(`insurer_match`, `kohi_num_match`) use the external fuzzy-regex library
and are passed in as their success flags.  Note the guard returns only when
*both* targets are set, and the insurer half is written under the
misspelled key `"HknajaNum"` as in the source. -/
def handleNums (insurerM kohiM : String → Bool) (texts : List String) (info0 : ADict) : ADict :=
  if aHave info0 "HknjaNum" && aHave info0 "Num" then info0
  else
    (List.range (min 5 texts.length)).foldl (fun info idx =>
      let line := texts.getD idx ""
      if insurerM line && kohiM line && idx + 1 < texts.length then
        let next := texts.getD (idx + 1) ""
        if pyIsdigit next then
          dictSet (dictSet info "HknajaNum" (some ⟨next.data.take 8⟩)) "Num" (some ⟨next.data.drop 8⟩)
        else info
      else info) info0

/-- `kouhi_analyzer.py:77-112` `_handle_multi_dates`.  Collect `(idx, date)`
pairs for lines carrying a from-marker (`から`, or `か` in second-to-last
position) or an until-marker (`迄`/`まで`); when both lists have at least
two entries, accumulate `"tag date;"` strings over the ±2-line windows of
each zipped pair and overwrite `YukoStYmd`/`YukoEdYmd` unconditionally.
(The trailing `texts[cidx][-1].replace(tag, "")` in the source discards its
result and is a no-op.) -/
def handleMultiDates (texts : List String) (info : ADict) : ADict :=
  let fu := texts.enum.foldl
    (fun (p : List (Nat × PyDate) × List (Nat × PyDate)) il =>
      let idx := il.1
      let cs := (il.2 : String).data
      let hasFrom := containsSub cs "から".data ||
        (decide (2 < cs.length) && cs.getD (cs.length - 2) ' ' = 'か')
      let hasUntil := containsSub cs "迄".data || containsSub cs "まで".data
      if !hasFrom && !hasUntil then p
      else
        let dates := get_date il.2
        if hasFrom && hasUntil && dates.length = 2 then
          match dates with
          | [da, db] => (p.1 ++ [(idx, da)], p.2 ++ [(idx, db)])
          | _ => p
        else
          let froms := match hasFrom, dates with
            | true, [da] => p.1 ++ [(idx, da)]
            | _, _ => p.1
          let untils := match hasUntil, dates with
            | true, [da] => p.2 ++ [(idx, da)]
            | _, _ => p.2
          (froms, untils))
    ([], [])
  if !(1 < fu.2.length && 1 < fu.1.length) then info
  else
    let se := (fu.1.zip fu.2).foldl (fun (se : String × String) pq =>
      let idxF := pq.1.1
      let idxU := pq.2.1
      let start := max (idxF - 2) (idxU - 2)
      let stop := min (min (texts.length - 1) (idxF + 2)) (idxU + 2)
      (List.range' start (stop + 1 - start)).foldl (fun se cidx =>
        dateTags.foldl (fun se tag =>
          if containsSub (replaceSub (texts.getD cidx "").data "憮".data "無".data) tag.data then
            (se.1 ++ tag ++ " " ++ pq.1.2.western_str ++ ";",
             se.2 ++ tag ++ " " ++ pq.2.2.western_str ++ ";")
          else se) se) se) ("", "")
    if se.1 ≠ "" && se.2 ≠ "" then
      dictSet (dictSet info "YukoStYmd" (some se.1)) "YukoEdYmd" (some se.2)
    else info

/-! ## Basic lemmas on the dict and role-map models -/

theorem dictFind_set_self {α : Type} (d : List (String × α)) (k : String) (v : α) :
    dictFind (dictSet d k v) k = some v := by
  induction d with
  | nil => simp [dictSet, dictFind]
  | cons hd t ih =>
    obtain ⟨k1, v1⟩ := hd
    by_cases h : k1 = k
    · simp [dictSet, dictFind, h]
    · simp [dictSet, dictFind, h, ih]

theorem dictFind_set_ne {α : Type} (d : List (String × α)) (k k' : String) (v : α)
    (h : k' ≠ k) : dictFind (dictSet d k v) k' = dictFind d k' := by
  induction d with
  | nil => simp [dictSet, dictFind, Ne.symm h]
  | cons hd t ih =>
    obtain ⟨k1, v1⟩ := hd
    by_cases hh : k1 = k
    · subst hh
      simp [dictSet, dictFind, Ne.symm h]
    · simp [dictSet, dictFind, hh, ih]

theorem RoleMap.get_set {α : Type} (m : RoleMap α) (r r' : Role) (v : α) :
    (m.set r v).get r' = if r' = r then v else m.get r' := by
  cases r <;> cases r' <;> simp [RoleMap.get, RoleMap.set]

/-! ## C2 — scoring-mode policy -/

/-- A page and matcher set on which the two scoring modes differ. -/
def mfsC2 : RoleMap (String → Nat × String) :=
  { birthday := fun t => (if t = "b" then 1 else 0, t)
    yukoEd := fun t => (0, t)
    yukoSt := fun t => (if t = "b" then 1 else 0, t)
    kofu := fun t => (0, t) }

def pageC2 : List String := ["a", "b", "c"]

/-- C2, counterexample: in the initial scoring the Birthday vector is the
*extended* one (`[1,2,1]`, not the raw hits `[0,1,0]`), while the
ValidFrom (`YukoStYmd`) vector is the *raw* one — the opposite of the
claimed mode assignment. -/
theorem c2_counterexample :
    ((scoresPre mfsC2 pageC2).get .Birthday).1 = [1, 2, 1] ∧
    (scoreLines (mfsC2.get .Birthday) pageC2 true).1 = [0, 1, 0] ∧
    ((scoresPre mfsC2 pageC2).get .Birthday).1 ≠
      (scoreLines (mfsC2.get .Birthday) pageC2 true).1 ∧
    ((scoresPre mfsC2 pageC2).get .YukoStYmd).1 = [0, 1, 0] ∧
    (scoreLines (mfsC2.get .YukoStYmd) pageC2 false).1 = [1, 2, 1] ∧
    ((scoresPre mfsC2 pageC2).get .YukoStYmd).1 ≠
      (scoreLines (mfsC2.get .YukoStYmd) pageC2 false).1 := by
  refine ⟨by decide, by decide, by decide, by decide, by decide, by decide⟩

/-- C2, amended: in `_score` (before the step-1 ValidUntil exception) the
*Birthday* vector is the neighbor-extended one and each of the other three
roles gets the raw hit vector. -/
theorem c2_amended (mfs : RoleMap (String → Nat × String)) (texts : List String) :
    (((scoresPre mfs texts).get .Birthday).1 =
      (List.range texts.length).map (fun i =>
        2 * (texts.map (fun t => ((mfs.get .Birthday) t).1)).getD i 0 +
          (texts.map (fun t => ((mfs.get .Birthday) t).1)).getD (i + 1) 0 +
          (if i = 0 then 0
            else (texts.map (fun t => ((mfs.get .Birthday) t).1)).getD (i - 1) 0))) ∧
    ∀ r : Role, r ≠ .Birthday →
      ((scoresPre mfs texts).get r).1 = texts.map (fun t => ((mfs.get r) t).1) := by
  constructor
  · simp [scoresPre, scoreLines, RoleMap.get, Function.comp_def]
  · intro r hr
    cases r with
    | Birthday => exact absurd rfl hr
    | YukoEdYmd => simp [scoresPre, scoreLines, RoleMap.get, Function.comp_def]
    | YukoStYmd => simp [scoresPre, scoreLines, RoleMap.get, Function.comp_def]
    | KofuYmd => simp [scoresPre, scoreLines, RoleMap.get, Function.comp_def]

/-! ## C4 — line scorer -/

/-- C4, counterexample: `valid_from_match` on the line `"から"` succeeds
with flag `2` (the `か.$` branch), so the raw hit of that line is `2`, not
`1`, and the non-extended score vector is `[2]` — outside `{0, 1}`. -/
theorem c4_counterexample :
    valid_from_match (fun _ => none) "から" = (2, "") ∧
    (scoreLines (valid_from_match (fun _ => none)) ["から"] true).1 = [2] ∧
    (2 : Nat) ≠ 1 ∧ (2 : Nat) ≠ 0 := by
  refine ⟨by decide, by decide, by decide, by decide⟩

/-- C4, amended: the raw hit of line `i` is the matcher's integer success
flag (not always `0`/`1`: some `valid_from_match` branches return `2`);
non-extended scoring returns exactly the flags, extended scoring returns
`2·hit[i] + hit[i+1] + hit[i-1]` with out-of-range neighbors contributing 0. -/
theorem c4_amended (mf : String → Nat × String) (texts : List String) :
    ((scoreLines mf texts true).1 = texts.map (fun t => (mf t).1)) ∧
    (∀ i, i < texts.length →
      (scoreLines mf texts false).1.getD i 0 =
        2 * (texts.map (fun t => (mf t).1)).getD i 0 +
          (texts.map (fun t => (mf t).1)).getD (i + 1) 0 +
          (if i = 0 then 0 else (texts.map (fun t => (mf t).1)).getD (i - 1) 0)) ∧
    (∀ fb, (valid_from_match fb "から").1 = 2) := by
  refine ⟨by simp [scoreLines, Function.comp_def], ?_, fun fb => rfl⟩
  intro i hi
  simp only [scoreLines, Bool.false_eq_true, if_false, List.getD]
  rw [List.get?_map, List.get?_range (by simpa using hi)]
  simp [Function.comp_def]

theorem c4_amended_witness :
    (0 : Nat) < 1 ∧
      (scoreLines (fun t => (1, t)) ["x"] false).1.getD 0 0 =
        2 * ((["x"] : List String).map (fun t => ((fun t => ((1 : Nat), t)) t).1)).getD 0 0 +
          ((["x"] : List String).map (fun t => ((fun t => ((1 : Nat), t)) t).1)).getD 1 0 +
          (if (0 : Nat) = 0 then 0
            else ((["x"] : List String).map (fun t => ((fun t => ((1 : Nat), t)) t).1)).getD 0 0) :=
  ⟨by decide, (c4_amended (fun t => (1, t)) ["x"]).2.1 0 (by decide)⟩

/-! ## C9 — state independence and idempotence of `extract` -/

/-- C9: the result of `extract` does not depend on the instance state it
starts from (lines 100-101 reset `self.texts`/`self.info` and `_score`
overwrites every key of `self.scores`), so re-running it on the identical
page returns the identical field map. -/
theorem c9_extract_idempotent (s1 s2 : DatesFinderState)
    (mfs : RoleMap (String → Nat × String)) (exf : String → List PyDate)
    (texts : List String) :
    extractS s1 mfs exf texts = extractS s2 mfs exf texts ∧
    (extractS (extractS s1 mfs exf texts).1 mfs exf texts).2 =
      (extractS s1 mfs exf texts).2 :=
  ⟨rfl, rfl⟩

/-! ## C3 — the threshold loop runs its body once per threshold -/

theorem processRole_sc (th : Nat) (st : FState) (key : Role) :
    (processRole th st key).sc = st.sc := by
  unfold processRole
  by_cases h1 : pyGetNone st.info key.name ≠ none
  · rw [if_pos h1]
  · rw [if_neg h1]
    dsimp only
    split
    · split <;> rfl
    · rfl

theorem step5Pass_sc (th : Nat) (st : FState) : (step5Pass th st).sc = st.sc := by
  unfold step5Pass roleOrder
  simp [List.foldl, processRole_sc]

theorem step5While_eq_pass (th : Nat) (st : FState) (fuel : Nat) (hf : 2 ≤ fuel) :
    step5WhileGo th fuel none st = step5Pass th st := by
  obtain ⟨f, rfl⟩ : ∃ f, fuel = f + 2 := ⟨fuel - 2, by omega⟩
  rw [step5WhileGo]
  rw [if_neg (by simp)]
  rw [step5WhileGo]
  rw [if_pos (by rw [step5Pass_sc])]

theorem step5_eq_fold (st : FState) :
    step5 st = (thresholds (maxScoreAll st.sc)).foldl (fun st th => step5Pass th st) st := by
  unfold step5
  congr 1
  funext st th
  exact step5While_eq_pass th st 2 le_rfl

/-- C3, amended (mechanism): the `while` guard compares `scores_prev` with
`self.scores`, which `step5Pass` never modifies, so for any fuel ≥ 2 the
loop body runs exactly once per threshold and step 5 is the fold of single
passes over the thresholds. -/
theorem c3_amended :
    (∀ th st fuel, 2 ≤ fuel → step5WhileGo th fuel none st = step5Pass th st) ∧
    (∀ st, step5 st =
      (thresholds (maxScoreAll st.sc)).foldl (fun st th => step5Pass th st) st) :=
  ⟨step5While_eq_pass, step5_eq_fold⟩

theorem c3_amended_witness :
    (2 : Nat) ≤ 2 ∧
      step5WhileGo 1 2 none (FState.mk ⟨[], [], [], []⟩ ⟨[], [], [], []⟩ []) =
        step5Pass 1 (FState.mk ⟨[], [], [], []⟩ ⟨[], [], [], []⟩ []) :=
  ⟨le_rfl, c3_amended.1 1 (FState.mk ⟨[], [], [], []⟩ ⟨[], [], [], []⟩ []) 2 le_rfl⟩

/-! ## C10 — step-5 assignment pops the used date from all four roles -/

theorem getD_set_self {α : Type} : ∀ (l : List α) (n : Nat) (a d : α), n < l.length →
    (l.set n a).getD n d = a
  | _ :: _, 0, _, _, _ => rfl
  | _ :: t, n+1, a, d, h => getD_set_self t n a d (Nat.lt_of_succ_lt_succ h)

/-- C10: when the iterative-threshold step assigns role `key` its single
remaining candidate `c` on its unique maximum-score line, the removal loop
(whose `set(self.scores.keys()) - set(key)` subtracts only the characters
of `key`) filters `str(c)` out of the cells of *all four* roles on that
line — so `key`'s own cell becomes empty — and `c` is recorded in `info`. -/
theorem popCell_get_self (i : Nat) (s : String) (da : RoleMap (List (List Cand)))
    (ok : Role) :
    ((popCell i s da ok).get ok).getD i [] =
      ((da.get ok).getD i []).filter (fun d => candStr d ≠ s) := by
  unfold popCell
  dsimp only
  by_cases he : ((da.get ok).getD i []).isEmpty
  · rw [if_pos he]
    have hnil : (da.get ok).getD i [] = [] := by
      cases hcell : (da.get ok).getD i [] with
      | nil => rfl
      | cons a t => rw [hcell] at he; simp [List.isEmpty] at he
    rw [hnil]
    rfl
  · rw [if_neg he]
    have hlt : i < (da.get ok).length := by
      by_contra hge
      have hnil : (da.get ok).getD i [] = [] := by
        rw [List.getD_eq_getElem?_getD, List.getElem?_eq_none (by omega)]
        rfl
      rw [hnil] at he
      simp [List.isEmpty] at he
    rw [RoleMap.get_set, if_pos rfl]
    exact getD_set_self _ _ _ _ hlt

theorem popCell_get_other (i : Nat) (s : String) (da : RoleMap (List (List Cand)))
    (ok r : Role) (h : r ≠ ok) : (popCell i s da ok).get r = da.get r := by
  unfold popCell
  dsimp only
  by_cases he : ((da.get ok).getD i []).isEmpty
  · rw [if_pos he]
  · rw [if_neg he, RoleMap.get_set, if_neg h]

/-- C10: when the iterative-threshold step assigns role `key` its single
remaining candidate `c` on its unique maximum-score line, the removal loop
(whose `set(self.scores.keys()) - set(key)` subtracts only the characters
of `key`) filters `str(c)` out of the cells of *all four* roles on that
line — so `key`'s own cell becomes empty — and `c` is recorded in `info`. -/
theorem c10_assign_pops_all_roles (th : Nat) (st : FState) (key : Role) (c : Cand)
    (h1 : pyGetNone st.info key.name = none)
    (h2 : th ≤ listMax (st.sc.get key))
    (h3 : countMax (st.sc.get key) = 1)
    (hc : (st.da.get key).getD (listArgmax (st.sc.get key)) [] = [c]) :
    (∀ r : Role, ((processRole th st key).da.get r).getD (listArgmax (st.sc.get key)) [] =
      ((st.da.get r).getD (listArgmax (st.sc.get key)) []).filter
        (fun d => candStr d ≠ candStr c)) ∧
    ((processRole th st key).da.get key).getD (listArgmax (st.sc.get key)) [] = [] ∧
    pyGetNone (processRole th st key).info key.name = some c := by
  set idxMax := listArgmax (st.sc.get key) with hidx
  have hres : processRole th st key =
      { st with
        info := dictSet st.info key.name (some c)
        da := roleOrder.foldl (popCell idxMax (candStr c)) st.da } := by
    unfold processRole
    rw [if_neg (by simp [h1])]
    dsimp only
    rw [← hidx]
    have hc' : (st.da.get key)[idxMax]?.getD [] = [c] := by
      rw [← List.getD_eq_getElem?_getD]
      exact hc
    rw [if_pos (by simp [h2, h3, hc']), hc]
    rfl
  have hall : ∀ r : Role,
      ((roleOrder.foldl (popCell idxMax (candStr c)) st.da).get r).getD idxMax [] =
        ((st.da.get r).getD idxMax []).filter (fun d => candStr d ≠ candStr c) := by
    intro r
    rw [show roleOrder = [.Birthday, .YukoEdYmd, .YukoStYmd, .KofuYmd] from rfl]
    simp only [List.foldl]
    cases r with
    | Birthday =>
      rw [popCell_get_other _ _ _ _ _ (by decide), popCell_get_other _ _ _ _ _ (by decide),
        popCell_get_other _ _ _ _ _ (by decide)]
      exact popCell_get_self _ _ _ _
    | YukoEdYmd =>
      rw [popCell_get_other _ _ _ _ _ (by decide), popCell_get_other _ _ _ _ _ (by decide),
        popCell_get_self, popCell_get_other _ _ _ _ _ (by decide)]
    | YukoStYmd =>
      rw [popCell_get_other _ _ _ _ _ (by decide), popCell_get_self,
        popCell_get_other _ _ _ _ _ (by decide), popCell_get_other _ _ _ _ _ (by decide)]
    | KofuYmd =>
      rw [popCell_get_self, popCell_get_other _ _ _ _ _ (by decide),
        popCell_get_other _ _ _ _ _ (by decide), popCell_get_other _ _ _ _ _ (by decide)]
  refine ⟨?_, ?_, ?_⟩
  · intro r
    rw [hres]
    exact hall r
  · rw [hres]
    have := hall key
    dsimp only at this ⊢
    rw [this, hc]
    simp [candStr]
  · rw [hres]
    unfold pyGetNone
    rw [dictFind_set_self]
    rfl

def dW : PyDate := { m := "1", d := "2", y := "2000", jpy := none }

def cW : Cand := { rid := .Birthday, line := 0, pos := 0, val := dW }

def stW : FState :=
  { sc := ⟨[1], [0], [0], [0]⟩, da := ⟨[[cW]], [[]], [[]], [[]]⟩, info := [] }

theorem c10_witness :
    pyGetNone stW.info Role.Birthday.name = none ∧
    1 ≤ listMax (stW.sc.get .Birthday) ∧
    countMax (stW.sc.get .Birthday) = 1 ∧
    (stW.da.get .Birthday).getD (listArgmax (stW.sc.get .Birthday)) [] = [cW] ∧
    (((processRole 1 stW .Birthday).da.get .Birthday).getD
        (listArgmax (stW.sc.get .Birthday)) [] = [] ∧
      pyGetNone (processRole 1 stW .Birthday).info Role.Birthday.name = some cW) :=
  ⟨by decide, by decide, by decide, by decide,
    (c10_assign_pops_all_roles 1 stW .Birthday cW (by decide) (by decide) (by decide)
      (by decide)).2⟩

/-! ## C8 — analyzer fallback overwrite behavior -/

/-- The concrete page and merged field map on which `_handle_multi_dates`
overwrites a non-null value. -/
def pageC8 : List String :=
  ["令和1年1月1日から", "令和2年1月1日まで", "入院令和3年2月2日から", "令和4年2月2日まで"]

def infoC8 : ADict := [("YukoStYmd", some "20250505"), ("YukoEdYmd", some "20260606")]

/-- C8, counterexample: on `pageC8` the multi-dates fallback replaces the
non-null `YukoStYmd` value `"20250505"` held after the Finder merge with
the accumulated tag string — the fallback fires although its target was not
null. -/
theorem c8_counterexample :
    dictFind infoC8 "YukoStYmd" = some (some "20250505") ∧
    dictFind (handleMultiDates pageC8 infoC8) "YukoStYmd" =
      some (some "入院 20190101;入院 20210202;") ∧
    (some (some "入院 20190101;入院 20210202;") : Option (Option String)) ≠
      some (some "20250505") :=
  ⟨by decide, by decide, by decide⟩

/-- C8, amended: `_handle_nums` is guarded (it returns unchanged when both
its targets are already non-null), and `_handle_multi_dates` writes only
`YukoStYmd`/`YukoEdYmd` and preserves every other field — but it is not
guarded on those two targets and may overwrite them even when non-null
(see the counterexample). -/
theorem c8_amended :
    (∀ (texts : List String) (info : ADict) (k : String),
      k ≠ "YukoStYmd" → k ≠ "YukoEdYmd" →
      dictFind (handleMultiDates texts info) k = dictFind info k) ∧
    (∀ (iM kM : String → Bool) (texts : List String) (info : ADict),
      aHave info "HknjaNum" = true → aHave info "Num" = true →
      handleNums iM kM texts info = info) := by
  constructor
  · intro texts info k h1 h2
    unfold handleMultiDates
    dsimp only
    split
    · rfl
    · split
      · rw [dictFind_set_ne _ _ _ _ h2, dictFind_set_ne _ _ _ _ h1]
      · rfl
  · intro iM kM texts info hA hB
    unfold handleNums
    rw [if_pos (by simp [hA, hB])]

def infoC8b : ADict := [("HknjaNum", some "12345678"), ("Num", some "7654321")]

theorem c8_amended_witness :
    ("Birthday" : String) ≠ "YukoStYmd" ∧ ("Birthday" : String) ≠ "YukoEdYmd" ∧
    dictFind (handleMultiDates pageC8 infoC8) "Birthday" = dictFind infoC8 "Birthday" ∧
    handleNums (fun _ => true) (fun _ => true) pageC8 infoC8b = infoC8b :=
  ⟨by decide, by decide,
    c8_amended.1 pageC8 infoC8 "Birthday" (by decide) (by decide),
    c8_amended.2 (fun _ => true) (fun _ => true) pageC8 infoC8b (by decide) (by decide)⟩

theorem c2_amended_witness :
    (Role.YukoStYmd ≠ Role.Birthday) ∧
    ((scoresPre mfsC2 pageC2).get .YukoStYmd).1 =
      pageC2.map (fun t => ((mfsC2.get .YukoStYmd) t).1) :=
  ⟨by decide, (c2_amended mfsC2 pageC2).2 .YukoStYmd (by decide)⟩

/-! ## C3 — counterexample: the code's step 5 is not the spec's
repeat-until-stable loop -/

/-- Modelled from the spec (§4.4 step 5): "repeat until no role's
assignment changes at this threshold", re-checking the same threshold after
every assignment.  Each productive pass assigns at least one of the four
roles, so fuel 5 reaches the fixpoint. -/
def step5SpecGo (th : Nat) : Nat → FState → FState
  | 0, st => st
  | f+1, st =>
    let st' := step5Pass th st
    if st'.info = st.info then st' else step5SpecGo th f st'

def step5SpecAtTh (th : Nat) (st : FState) : FState := step5SpecGo th 5 st

/-- Modelled from the spec: step 5 with the per-threshold loop re-run until
no assignment changes, instead of the score-comparison guard of the code. -/
def step5Spec (st : FState) : FState :=
  (thresholds (maxScoreAll st.sc)).foldl (fun st th => step5SpecAtTh th st) st

def d1C3 : PyDate := { m := "1", d := "1", y := "2000", jpy := none }

def d2C3 : PyDate := { m := "2", d := "2", y := "2001", jpy := none }

/-- Matchers: Birthday and IssueDate both hit line 0; nothing else hits. -/
def mfsC3 : RoleMap (String → Nat × String) :=
  { birthday := fun t => if t = "L0" then (1, "bc") else (0, t)
    yukoEd := fun t => (0, t)
    yukoSt := fun t => (0, t)
    kofu := fun t => if t = "L0" then (1, "kc") else (0, t) }

/-- Extractor: Birthday's cut of line 0 yields two dates, IssueDate's cut
yields the second of them (equal canonical string). -/
def exfC3 : String → List PyDate :=
  fun t => if t = "bc" then [d1C3, d2C3] else if t = "kc" then [d2C3] else []

def pageC3 : List String := ["L0", "L1", "L2"]

/-- C3, counterexample: on `pageC3` the step-5 state loop of the code stops
after one pass per threshold (the guard compares score vectors, which never
change), so the IssueDate assignment made at threshold 1 — which leaves
Birthday with a single candidate on its unique best line — cannot unlock
Birthday at that same threshold: the code leaves Birthday unassigned after
step 5 while the spec's repeat-until-stable loop assigns it. -/
theorem c3_counterexample :
    step5 (preState mfsC3 exfC3 pageC3) ≠ step5Spec (preState mfsC3 exfC3 pageC3) ∧
    pyGetNone (step5 (preState mfsC3 exfC3 pageC3)).info "Birthday" = none ∧
    pyGetNone (step5Spec (preState mfsC3 exfC3 pageC3)).info "Birthday" =
      some { rid := .Birthday, line := 0, pos := 0, val := d1C3 } :=
  ⟨by decide, by decide, by decide⟩

/-! ## C1 — the suppression pass compares objects, not canonical strings -/

def dSh : PyDate := { m := "1", d := "1", y := "2000", jpy := none }

def dOt : PyDate := { m := "3", d := "3", y := "2002", jpy := none }

/-- Scenario E page: line 0 is claimed by Birthday (extended score 2), line
1 by ValidFrom (flag-2 branch); both roles extract the same literal date
from line 0. -/
def mfsC1 : RoleMap (String → Nat × String) :=
  { birthday := fun t => if t = "E0" then (1, "bc") else (0, t)
    yukoEd := fun t => (0, t)
    yukoSt := fun t =>
      if t = "E1" then (2, "sc1") else if t = "E0" then (1, "sc0") else (0, t)
    kofu := fun t => (0, t) }

def exfC1 : String → List PyDate :=
  fun t => if t = "bc" then [dSh] else if t = "sc0" then [dSh] else
    if t = "sc1" then [dOt] else []

def pageC1 : List String := ["E0", "E1"]

def scC1 : RoleMap (List Nat) := (scoreAll mfsC1 pageC1).1

def daC1 : RoleMap (List (List Cand)) :=
  buildDatesAll exfC1 scC1 (scoreAll mfsC1 pageC1).2

/-- C1, evaluation at the failing input: on line 0 exactly one role
(Birthday) scores ≥ 2, and ValidFrom's candidate set on line 0 holds a
candidate with the same canonical string as Birthday's claimed candidate —
yet the NMS pass removes nothing at all (`d1 not in dates2` at
`finders/date.py:132` compares `Date` objects by identity, and the objects
in distinct cells are always distinct), so after step 3 the shared literal
is still in the non-claiming role's set. -/
theorem c1_code_eval :
    nmsClaim scC1 0 = (some .Birthday, true) ∧
    (daC1.get .Birthday).getD 0 [] = [{ rid := .Birthday, line := 0, pos := 0, val := dSh }] ∧
    (daC1.get .YukoStYmd).getD 0 [] = [{ rid := .YukoStYmd, line := 0, pos := 0, val := dSh }] ∧
    candStr { rid := .YukoStYmd, line := 0, pos := 0, val := dSh } =
      candStr { rid := .Birthday, line := 0, pos := 0, val := dSh } ∧
    nmsPass 2 scC1 daC1 = daC1 :=
  ⟨by decide, by decide, by decide, by decide, by decide⟩

/-! ## C7 — total output with exactly the four role keys -/

def roleNames : List String := ["Birthday", "YukoEdYmd", "YukoStYmd", "KofuYmd"]

theorem Role.name_mem (r : Role) : r.name ∈ roleNames := by
  cases r <;> decide

/-- All keys of a dict lie in `S`. -/
def KeysIn {α : Type} (d : List (String × α)) (S : List String) : Prop :=
  ∀ k v, dictFind d k = some v → k ∈ S

theorem keysIn_nil {α : Type} (S : List String) : KeysIn ([] : List (String × α)) S := by
  intro k v h
  simp [dictFind] at h

theorem keysIn_set {α : Type} {d : List (String × α)} {S : List String}
    (hd : KeysIn d S) {key : String} (hk : key ∈ S) (v : α) :
    KeysIn (dictSet d key v) S := by
  intro k w h
  by_cases he : k = key
  · exact he ▸ hk
  · rw [dictFind_set_ne _ _ _ _ he] at h
    exact hd k w h

theorem hasKey_set_mono (d : PyDict) (k k' : String) (v : Option Cand)
    (h : hasKey d k = true) : hasKey (dictSet d k' v) k = true := by
  by_cases he : k = k'
  · subst he
    unfold hasKey
    rw [dictFind_set_self]
    rfl
  · unfold hasKey at h ⊢
    rw [dictFind_set_ne _ _ _ _ he]
    exact h

theorem hasKey_of_keysIn {d : PyDict} {S : List String} (hd : KeysIn d S) (k : String)
    (h : hasKey d k = true) : k ∈ S := by
  unfold hasKey at h
  cases hf : dictFind d k with
  | none => rw [hf] at h; simp at h
  | some v => exact hd k v hf

theorem foldl_keysIn {α β : Type} {S : List String} (f : List (String × α) → β → List (String × α))
    (hf : ∀ x b, KeysIn x S → KeysIn (f x b) S) :
    ∀ (l : List β) (x : List (String × α)), KeysIn x S → KeysIn (l.foldl f x) S
  | [], _, h => h
  | b :: t, x, h => foldl_keysIn f hf t (f x b) (hf x b h)

/-- The `info` written by each pipeline stage stays within the four role keys. -/
theorem infoKeys_fixupB (n : Nat) (sc : RoleMap (List Nat)) (da : RoleMap (List (List Cand)))
    {info0 : PyDict} (h0 : KeysIn info0 roleNames) : KeysIn (fixupB n sc da info0) roleNames := by
  unfold fixupB
  refine foldl_keysIn _ ?_ _ _ h0
  intro x b hx
  dsimp only
  split
  · split
    · split
      · exact keysIn_set (keysIn_set (keysIn_set (keysIn_set hx (by decide) _) (by decide) _)
          (by decide) _) (by decide) _
      · exact keysIn_set (keysIn_set hx (by decide) _) (by decide) _
    · exact hx
  · exact hx

theorem infoKeys_processRole (th : Nat) (st : FState) (key : Role)
    (h : KeysIn st.info roleNames) : KeysIn (processRole th st key).info roleNames := by
  unfold processRole
  split
  · exact h
  · dsimp only
    split
    · split
      · exact keysIn_set h (Role.name_mem key) _
      · exact h
    · exact h

theorem infoKeys_step5Pass (th : Nat) (st : FState)
    (h : KeysIn st.info roleNames) : KeysIn (step5Pass th st).info roleNames := by
  unfold step5Pass
  rw [show roleOrder = [.Birthday, .YukoEdYmd, .YukoStYmd, .KofuYmd] from rfl]
  simp only [List.foldl]
  exact infoKeys_processRole _ _ _ (infoKeys_processRole _ _ _
    (infoKeys_processRole _ _ _ (infoKeys_processRole _ _ _ h)))

theorem infoKeys_step5 (st : FState) (h : KeysIn st.info roleNames) :
    KeysIn (step5 st).info roleNames := by
  rw [step5_eq_fold]
  induction thresholds (maxScoreAll st.sc) generalizing st with
  | nil => exact h
  | cons b t ih =>
    rw [List.foldl_cons]
    exact ih _ (infoKeys_step5Pass _ _ h)

theorem infoKeys_step6 (st : FState) (h : KeysIn st.info roleNames) :
    KeysIn (step6 st).info roleNames := by
  unfold step6
  split
  · dsimp only
    split
    · split
      · exact keysIn_set (keysIn_set h (by decide) _) (by decide) _
      · exact h
    · exact h
  · exact h

theorem infoKeys_step7 (st : FState) (h : KeysIn st.info roleNames) :
    KeysIn (step7 st).info roleNames := by
  unfold step7
  split
  · dsimp only
    refine foldl_keysIn _ ?_ _ _ h
    intro x b hx
    split
    · split
      · split
        · exact keysIn_set (keysIn_set (keysIn_set (keysIn_set hx (by decide) _)
            (by decide) _) (by decide) _) (by decide) _
        · exact keysIn_set (keysIn_set hx (by decide) _) (by decide) _
      · exact hx
    · exact hx
  · exact h

theorem infoKeys_fallbackRole (st : FState) (key : Role)
    (h : KeysIn st.info roleNames) : KeysIn (fallbackRole st key).info roleNames := by
  unfold fallbackRole
  split
  · exact h
  · split
    · exact h
    · dsimp only
      split
      · exact keysIn_set h (Role.name_mem key) _
      · exact h

theorem infoKeys_fallbackStep (st : FState) (h : KeysIn st.info roleNames) :
    KeysIn (fallbackStep st).info roleNames := by
  unfold fallbackStep
  rw [show roleOrder = [.Birthday, .YukoEdYmd, .YukoStYmd, .KofuYmd] from rfl]
  simp only [List.foldl]
  exact infoKeys_fallbackRole _ _ (infoKeys_fallbackRole _ _
    (infoKeys_fallbackRole _ _ (infoKeys_fallbackRole _ _ h)))

theorem infoKeys_finalize (info : PyDict) (h : KeysIn info roleNames) :
    KeysIn (finalize info) roleNames := by
  unfold finalize
  rw [show roleOrder = [.Birthday, .YukoEdYmd, .YukoStYmd, .KofuYmd] from rfl]
  simp only [List.foldl]
  have step : ∀ (i : PyDict) (r : Role), KeysIn i roleNames →
      KeysIn (if hasKey i r.name then i else dictSet i r.name none) roleNames := by
    intro i r hi
    split
    · exact hi
    · exact keysIn_set hi (Role.name_mem r) _
  exact step _ _ (step _ _ (step _ _ (step _ _ h)))

theorem finstep_self (info : PyDict) (r : Role) :
    hasKey (if hasKey info r.name then info else dictSet info r.name none) r.name = true := by
  split
  · assumption
  · unfold hasKey
    rw [dictFind_set_self]
    rfl

theorem finstep_mono (info : PyDict) (r : Role) (k : String) (h : hasKey info k = true) :
    hasKey (if hasKey info r.name then info else dictSet info r.name none) k = true := by
  split
  · exact h
  · exact hasKey_set_mono _ _ _ _ h

theorem finalize_hasKey (info : PyDict) (r : Role) :
    hasKey (finalize info) r.name = true := by
  unfold finalize
  rw [show roleOrder = [.Birthday, .YukoEdYmd, .YukoStYmd, .KofuYmd] from rfl]
  simp only [List.foldl]
  cases r with
  | Birthday =>
    exact finstep_mono _ _ _ (finstep_mono _ _ _ (finstep_mono _ _ _ (finstep_self _ _)))
  | YukoEdYmd =>
    exact finstep_mono _ _ _ (finstep_mono _ _ _ (finstep_self _ _))
  | YukoStYmd => exact finstep_mono _ _ _ (finstep_self _ _)
  | KofuYmd => exact finstep_self _ _

/-- C7: on every non-empty page `extract` returns a field map (the only
exception source, `np.max` over the scores of an empty page, cannot fire),
and that map's key set is exactly the four role names; roles the pipeline
could not resolve are filled with `None` by the final loop. -/
theorem c7_total_four_keys (mfs : RoleMap (String → Nat × String))
    (exf : String → List PyDate) (texts : List String) (h : texts ≠ []) :
    ∃ m, extract mfs exf texts = some m ∧
      ∀ k, hasKey m k = true ↔ k ∈ roleNames := by
  refine ⟨(extractCore mfs exf texts).info, ?_, ?_⟩
  · unfold extract
    rw [if_neg (by simpa using h)]
  · have hpre : KeysIn (preState mfs exf texts).info roleNames := by
      unfold preState
      exact infoKeys_fixupB _ _ _ (keysIn_nil _)
    have hkeys : KeysIn (extractCore mfs exf texts).info roleNames := by
      have h5 := infoKeys_step5 (preState mfs exf texts) hpre
      have h6 := infoKeys_step6 (step5 (preState mfs exf texts)) h5
      have h7 := infoKeys_step7 (step6 (step5 (preState mfs exf texts))) h6
      have hfb := infoKeys_fallbackStep (step7 (step6 (step5 (preState mfs exf texts)))) h7
      unfold extractCore
      dsimp only
      exact infoKeys_finalize _ hfb
    intro k
    constructor
    · exact hasKey_of_keysIn hkeys k
    · intro hk
      unfold extractCore
      dsimp only
      fin_cases hk
      · exact finalize_hasKey _ .Birthday
      · exact finalize_hasKey _ .YukoEdYmd
      · exact finalize_hasKey _ .YukoStYmd
      · exact finalize_hasKey _ .KofuYmd

def mfsTriv : RoleMap (String → Nat × String) :=
  { birthday := fun t => (0, t), yukoEd := fun t => (0, t)
    yukoSt := fun t => (0, t), kofu := fun t => (0, t) }

theorem c7_witness :
    (["x"] : List String) ≠ [] ∧
    ∃ m, extract mfsTriv get_date ["x"] = some m ∧
      ∀ k, hasKey m k = true ↔ k ∈ roleNames :=
  ⟨by decide, c7_total_four_keys mfsTriv get_date ["x"] (by decide)⟩

/-! ## C5 — fallback scan order and value choice -/

/-- The strict order `argsortDesc` realizes: higher score first, ties by
original line order. -/
def precS (s : List Nat) (i j : Nat) : Prop :=
  s.getD j 0 < s.getD i 0 ∨ (s.getD i 0 = s.getD j 0 ∧ i < j)

theorem insDesc_perm (s : List Nat) (i : Nat) :
    ∀ l, List.Perm (insDesc s i l) (i :: l)
  | [] => List.Perm.refl _
  | j :: t => by
    unfold insDesc
    split
    · exact List.Perm.refl _
    · exact ((insDesc_perm s i t).cons j).trans (List.Perm.swap i j t)

theorem insDesc_pairwise (s : List Nat) (i : Nat) :
    ∀ l, List.Pairwise (precS s) l → (∀ j ∈ l, j < i) →
      List.Pairwise (precS s) (insDesc s i l)
  | [], _, _ => by simp [insDesc, List.Pairwise]
  | j :: t, hp, hlt => by
    rw [List.pairwise_cons] at hp
    unfold insDesc
    by_cases hij : s.getD j 0 < s.getD i 0
    · rw [if_pos hij]
      refine List.Pairwise.cons ?_ (List.Pairwise.cons hp.1 hp.2)
      intro x hx
      cases hx with
      | head => exact Or.inl hij
      | tail _ hx =>
        rcases hp.1 x hx with h | ⟨he, _⟩
        · exact Or.inl (h.trans hij)
        · exact Or.inl (he ▸ hij)
    · rw [if_neg hij]
      refine List.Pairwise.cons ?_ (insDesc_pairwise s i t hp.2
        (fun x hx => hlt x (List.mem_cons_of_mem j hx)))
      intro x hx
      have hx' : x = i ∨ x ∈ t := by
        have := (insDesc_perm s i t).mem_iff.mp hx
        simpa using this
      cases hx' with
      | inl he =>
        subst he
        rcases Nat.lt_or_ge (s.getD x 0) (s.getD j 0) with h | h
        · exact Or.inl h
        · have : s.getD j 0 = s.getD x 0 := by omega
          exact Or.inr ⟨this, hlt j (List.mem_cons_self j t)⟩
      | inr hx => exact hp.1 x hx

theorem argsortFold_spec (s : List Nat) :
    ∀ n, List.Perm ((List.range n).foldl (fun acc i => insDesc s i acc) []) (List.range n) ∧
      List.Pairwise (precS s) ((List.range n).foldl (fun acc i => insDesc s i acc) []) := by
  intro n
  induction n with
  | zero => simp [List.Pairwise]
  | succ n ih =>
    rw [List.range_succ, List.foldl_append]
    simp only [List.foldl]
    have hmem : ∀ j ∈ (List.range n).foldl (fun acc i => insDesc s i acc) [], j < n :=
      fun j hj => List.mem_range.mp (ih.1.mem_iff.mp hj)
    constructor
    · exact (insDesc_perm s n _).trans ((ih.1.cons n).trans
        (List.perm_append_singleton n (List.range n)).symm)
    · exact insDesc_pairwise s n _ ih.2 hmem

theorem argsortDesc_perm (s : List Nat) :
    List.Perm (argsortDesc s) (List.range s.length) := (argsortFold_spec s s.length).1

theorem argsortDesc_pairwise (s : List Nat) :
    List.Pairwise (precS s) (argsortDesc s) := (argsortFold_spec s s.length).2

theorem find?_sorted_min (s : List Nat) (P : Nat → Bool) :
    ∀ (l : List Nat), List.Pairwise (precS s) l →
    ∀ idx, l.find? P = some idx →
      P idx = true ∧ idx ∈ l ∧ ∀ j ∈ l, P j = true → idx = j ∨ precS s idx j
  | [], _, idx, h => by simp [List.find?] at h
  | a :: t, hp, idx, h => by
    rw [List.pairwise_cons] at hp
    by_cases ha : P a = true
    · rw [List.find?_cons_of_pos _ ha] at h
      injection h with h
      subst h
      refine ⟨ha, List.mem_cons_self _ _, ?_⟩
      intro j hj _
      cases hj with
      | head => exact Or.inl rfl
      | tail _ hj => exact Or.inr (hp.1 j hj)
    · rw [List.find?_cons_of_neg _ ha] at h
      obtain ⟨h1, h2, h3⟩ := find?_sorted_min s P t hp.2 idx h
      refine ⟨h1, List.mem_cons_of_mem a h2, ?_⟩
      intro j hj hPj
      cases hj with
      | head => exact absurd hPj ha
      | tail _ hj => exact h3 j hj hPj

/-- `candStr`-ascending comparison used by the Birthday sort. -/
def leS (a b : Cand) : Prop := candStr a ≤ candStr b

theorem insStr_perm (c : Cand) : ∀ l, List.Perm (insStr c l) (c :: l)
  | [] => List.Perm.refl _
  | d :: t => by
    unfold insStr
    split
    · exact List.Perm.refl _
    · exact ((insStr_perm c t).cons d).trans (List.Perm.swap c d t)

theorem insStr_pairwise (c : Cand) :
    ∀ l, List.Pairwise leS l → List.Pairwise leS (insStr c l)
  | [], _ => by simp [insStr, List.Pairwise]
  | d :: t, hp => by
    rw [List.pairwise_cons] at hp
    unfold insStr
    by_cases hcd : candStr c < candStr d
    · rw [if_pos hcd]
      refine List.Pairwise.cons ?_ (List.Pairwise.cons hp.1 hp.2)
      intro x hx
      cases hx with
      | head => exact le_of_lt hcd
      | tail _ hx => exact le_trans (le_of_lt hcd) (hp.1 x hx)
    · rw [if_neg hcd]
      refine List.Pairwise.cons ?_ (insStr_pairwise c t hp.2)
      intro x hx
      have hx' : x = c ∨ x ∈ t := by
        have := (insStr_perm c t).mem_iff.mp hx
        simpa using this
      cases hx' with
      | inl he => exact he ▸ le_of_not_lt hcd
      | inr hx => exact hp.1 x hx

theorem sortFold_spec :
    ∀ (l acc : List Cand), List.Pairwise leS acc →
      List.Perm (l.foldl (fun acc c => insStr c acc) acc) (l ++ acc) ∧
      List.Pairwise leS (l.foldl (fun acc c => insStr c acc) acc)
  | [], acc, h => ⟨by simp, h⟩
  | c :: t, acc, h => by
    obtain ⟨hperm, hpw⟩ := sortFold_spec t (insStr c acc) (insStr_pairwise c acc h)
    refine ⟨?_, hpw⟩
    rw [List.foldl_cons]
    exact hperm.trans ((List.Perm.append_left t (insStr_perm c acc)).trans List.perm_middle)

theorem sortByStr_perm (l : List Cand) : List.Perm (sortByStr l) l := by
  have := (sortFold_spec l [] (by simp [List.Pairwise])).1
  simpa [sortByStr] using this

theorem sortByStr_pairwise (l : List Cand) : List.Pairwise leS (sortByStr l) :=
  (sortFold_spec l [] (by simp [List.Pairwise])).2

/-- C5: for a role still unresolved when the fallback runs, if no line of
its score vector has a remaining candidate it stays unresolved; otherwise
the fallback assigns a value from a line `idx` that, among all lines with a
non-empty candidate set, has maximal score with ties broken by the smallest
line index (that is, the first line in the stable descending-score scan);
Birthday takes a candidate of minimal canonical string on that line, every
other role the first candidate in extraction order. -/
theorem c5_fallback_scan (st : FState) (key : Role)
    (h : pyGetNone st.info key.name = none) :
    ((∀ j, j < (st.sc.get key).length → (st.da.get key).getD j [] = []) →
      pyGetNone (fallbackRole st key).info key.name = none) ∧
    (∀ j0, j0 < (st.sc.get key).length → (st.da.get key).getD j0 [] ≠ [] →
      ∃ idx c, idx < (st.sc.get key).length ∧ (st.da.get key).getD idx [] ≠ [] ∧
        (∀ j, j < (st.sc.get key).length → (st.da.get key).getD j [] ≠ [] →
          idx = j ∨ (st.sc.get key).getD j 0 < (st.sc.get key).getD idx 0 ∨
            ((st.sc.get key).getD idx 0 = (st.sc.get key).getD j 0 ∧ idx < j)) ∧
        pyGetNone (fallbackRole st key).info key.name = some c ∧
        (key = .Birthday → c ∈ (st.da.get key).getD idx [] ∧
          ∀ d ∈ (st.da.get key).getD idx [], candStr c ≤ candStr d) ∧
        (key ≠ .Birthday → ((st.da.get key).getD idx []).head? = some c)) := by
  set s := st.sc.get key with hs
  set P : Nat → Bool := fun idx => !((st.da.get key).getD idx []).isEmpty with hPdef
  have hPiff : ∀ j, P j = true ↔ (st.da.get key).getD j [] ≠ [] := by
    intro j
    cases hcell : (st.da.get key).getD j [] with
    | nil =>
      rw [hPdef]
      dsimp only
      rw [hcell]
      simp
    | cons a t =>
      rw [hPdef]
      dsimp only
      rw [hcell]
      simp
  constructor
  · intro hall
    unfold fallbackRole
    rw [if_neg (by simp [h])]
    have hnone : (argsortDesc s).find? P = none := by
      rw [List.find?_eq_none]
      intro j hj
      have hjn : j < s.length := List.mem_range.mp ((argsortDesc_perm s).mem_iff.mp hj)
      intro hPj
      exact (hPiff j).mp hPj (hall j hjn)
    rw [hnone]
    exact h
  · intro j0 hj0 hne0
    cases hfind : (argsortDesc s).find? P with
    | none =>
      exfalso
      rw [List.find?_eq_none] at hfind
      exact hfind j0 ((argsortDesc_perm s).mem_iff.mpr (List.mem_range.mpr hj0))
        ((hPiff j0).mpr hne0)
    | some idx =>
      obtain ⟨hPidx, hmem, hmin⟩ :=
        find?_sorted_min s P (argsortDesc s) (argsortDesc_pairwise s) idx hfind
      have hidxn : idx < s.length := List.mem_range.mp ((argsortDesc_perm s).mem_iff.mp hmem)
      have hneidx : (st.da.get key).getD idx [] ≠ [] := (hPiff idx).mp hPidx
      have hminP : ∀ j, j < s.length → (st.da.get key).getD j [] ≠ [] →
          idx = j ∨ s.getD j 0 < s.getD idx 0 ∨ (s.getD idx 0 = s.getD j 0 ∧ idx < j) := by
        intro j hjn hjne
        rcases hmin j ((argsortDesc_perm s).mem_iff.mpr (List.mem_range.mpr hjn))
            ((hPiff j).mpr hjne) with he | hp
        · exact Or.inl he
        · rcases hp with hlt | ⟨heq, hlt⟩
          · exact Or.inr (Or.inl hlt)
          · exact Or.inr (Or.inr ⟨heq, hlt⟩)
      have base : ∀ c rest,
          (if key = Role.Birthday then sortByStr ((st.da.get key).getD idx [])
            else (st.da.get key).getD idx []) = c :: rest →
          pyGetNone (fallbackRole st key).info key.name = some c := by
        intro c rest hcell
        unfold fallbackRole
        rw [if_neg (by simp [h]), hfind]
        dsimp only
        rw [hcell]
        unfold pyGetNone
        rw [dictFind_set_self]
        rfl
      by_cases hkey : key = Role.Birthday
      · have hps := sortByStr_pairwise ((st.da.get key).getD idx [])
        have hpm := sortByStr_perm ((st.da.get key).getD idx [])
        cases hsort : sortByStr ((st.da.get key).getD idx []) with
        | nil =>
          exfalso
          rw [hsort] at hpm
          exact hneidx (List.Perm.nil_eq hpm).symm
        | cons c rest =>
          refine ⟨idx, c, hidxn, hneidx, hminP, ?_, ?_, ?_⟩
          · exact base c rest (by rw [if_pos hkey, hsort])
          · intro _
            constructor
            · have : c ∈ sortByStr ((st.da.get key).getD idx []) := by
                rw [hsort]; exact List.mem_cons_self _ _
              exact hpm.mem_iff.mp this
            · intro d hd
              have hd' : d ∈ sortByStr ((st.da.get key).getD idx []) :=
                hpm.mem_iff.mpr hd
              rw [hsort] at hd' hps
              rw [List.pairwise_cons] at hps
              cases hd' with
              | head => exact le_refl _
              | tail _ hd' => exact hps.1 d hd'
          · intro hne
            exact absurd hkey hne
      · cases hcell : (st.da.get key).getD idx [] with
        | nil => exact absurd hcell hneidx
        | cons c rest =>
          refine ⟨idx, c, hidxn, hneidx, hminP, ?_, ?_, ?_⟩
          · exact base c rest (by rw [if_neg hkey, hcell])
          · intro hb
            exact absurd hb hkey
          · intro _
            rw [hcell]
            rfl

theorem c5_witness :
    pyGetNone stW.info Role.KofuYmd.name = none ∧
    (0 : Nat) < (stW.sc.get .KofuYmd).length ∧
    ((∀ j, j < (stW.sc.get .KofuYmd).length → (stW.da.get .KofuYmd).getD j [] = []) →
      pyGetNone (fallbackRole stW .KofuYmd).info Role.KofuYmd.name = none) :=
  ⟨by decide, by decide, (c5_fallback_scan stW .KofuYmd (by decide)).1⟩

/-! ## C6 — round-trip of the date codec -/

/-- The canonical 8-digit form `YYYYMMDD` of a CalendarDate (spec §3). -/
def canonicalStr (y m d : Nat) : String :=
  pyNatRepr y ++ zfill 2 (pyNatRepr m) ++ zfill 2 (pyNatRepr d)

/-- C6, counterexample: the canonical string of 1987-03-10 parses to no
date at all (`get_date "19870310" = []`), so re-serialising the parse
cannot reproduce the canonical string. -/
theorem c6_counterexample :
    canonicalStr 1987 3 10 = "19870310" ∧
    (get_date (canonicalStr 1987 3 10)).map PyDate.western_str = [] ∧
    ([] : List String) ≠ ["19870310"] :=
  ⟨by decide, by decide, by decide⟩

/-- Every character is a decimal digit. -/
def AllDigits (l : List Char) : Prop := ∀ c ∈ l, c.isDigit = true

theorem digitChar_isDigit (n : Nat) (h : n < 10) : (digitChar n).isDigit = true := by
  interval_cases n <;> decide

theorem natDigitsAux_allDigits : ∀ (fuel n : Nat), AllDigits (natDigitsAux fuel n)
  | 0, _ => by intro c hc; simp [natDigitsAux] at hc
  | fuel+1, n => by
    intro c hc
    rw [natDigitsAux] at hc
    by_cases h : n < 10
    · rw [if_pos h] at hc
      simp at hc
      exact hc ▸ digitChar_isDigit n h
    · rw [if_neg h] at hc
      rcases List.mem_append.mp hc with h1 | h1
      · exact natDigitsAux_allDigits fuel (n / 10) c h1
      · simp at h1
        exact h1 ▸ digitChar_isDigit (n % 10) (Nat.mod_lt n (by omega))

theorem pyNatRepr_allDigits (n : Nat) : AllDigits (pyNatRepr n).data :=
  natDigitsAux_allDigits (n + 1) n

theorem zfill_allDigits (w : Nat) (s : String) (h : AllDigits s.data) :
    AllDigits (zfill w s).data := by
  unfold zfill
  split
  · exact h
  · intro c hc
    rcases List.mem_append.mp hc with h1 | h1
    · rw [List.eq_of_mem_replicate h1]
      decide
    · exact h c h1

theorem canonicalStr_allDigits (y m d : Nat) : AllDigits (canonicalStr y m d).data := by
  intro c hc
  unfold canonicalStr at hc
  rw [String.data_append, String.data_append] at hc
  rcases List.mem_append.mp hc with h1 | h1
  · rcases List.mem_append.mp h1 with h2 | h2
    · exact pyNatRepr_allDigits y c h2
    · exact zfill_allDigits 2 _ (pyNatRepr_allDigits m) c h2
  · exact zfill_allDigits 2 _ (pyNatRepr_allDigits d) c h1

theorem allDigits_tail {c : Char} {t : List Char} (h : AllDigits (c :: t)) : AllDigits t :=
  fun x hx => h x (List.mem_cons_of_mem c hx)

/-- `replace` with a pattern whose first character is not a digit leaves an
all-digit string unchanged. -/
theorem replaceSubAux_allDigits_id (c0 : Char) (pt : List Char) (hc : c0.isDigit = false)
    (rep : List Char) : ∀ (fuel : Nat) (hay : List Char), AllDigits hay →
    replaceSubAux (c0 :: pt) rep fuel hay = hay
  | 0, _, _ => rfl
  | fuel+1, [], _ => by
    rw [replaceSubAux, if_neg (by simp [List.isPrefixOf])]
  | fuel+1, a :: t, h => by
    have ha := h a (List.mem_cons_self a t)
    have hbe : (c0 == a) = false := by
      cases hbe : c0 == a with
      | false => rfl
      | true =>
        rw [beq_iff_eq] at hbe
        rw [hbe, ha] at hc
        cases hc
    rw [replaceSubAux, if_neg (by simp [List.isPrefixOf, hbe])]
    rw [replaceSubAux_allDigits_id c0 pt hc rep fuel t (allDigits_tail h)]

theorem lastDaySubAux_allDigits_id : ∀ (fuel : Nat) (hay : List Char), AllDigits hay →
    lastDaySubAux fuel hay = hay
  | 0, _, _ => rfl
  | _+1, [], _ => rfl
  | _+1, [a], _ => rfl
  | fuel+1, a :: b :: t2, h => by
    have ha := h a (List.mem_cons_self _ _)
    have h1 : (a = '末') = False := by
      simp only [eq_iff_iff, iff_false]
      intro he
      rw [he] at ha
      cases ha
    have h2 : (a = '未') = False := by
      simp only [eq_iff_iff, iff_false]
      intro he
      rw [he] at ha
      cases ha
    rw [lastDaySubAux, if_neg (by simp [h1, h2])]
    rw [lastDaySubAux_allDigits_id fuel (b :: t2) (allDigits_tail h)]

theorem clean_date_allDigits_id (s : String) (h : AllDigits s.data) : clean_date s = s := by
  unfold clean_date
  unfold replaceSub
  rw [replaceSubAux_allDigits_id '元' ['年'] (by decide) _ _ _ h]
  unfold lastDaySub
  rw [lastDaySubAux_allDigits_id _ _ h]

/-! Engine lemmas: every match result's rest is a suffix of the input, and
the DATE patterns cannot match an all-digit string because each requires a
non-digit separator (or a non-digit era marker). -/

mutual

theorem matchR_suffix : ∀ (p : RPat) (s : List Char) (pr : List String × List Char),
    pr ∈ matchR p s → pr.2 <:+ s
  | .cls q, s, pr, h => by
    cases s with
    | nil => simp [matchR] at h
    | cons c t =>
      rw [matchR] at h
      by_cases hq : q c
      · rw [if_pos hq] at h
        simp at h
        rw [h]
        exact List.suffix_cons c t
      · rw [if_neg hq] at h
        cases h
  | .lit l, s, pr, h => by
    rw [matchR] at h
    by_cases hp : l.isPrefixOf s
    · rw [if_pos hp] at h
      simp at h
      rw [h]
      exact List.drop_suffix _ _
    · rw [if_neg hp] at h
      cases h
  | .alt ps, s, pr, h => matchAlt_suffix ps s pr (by rw [matchR] at h; exact h)
  | .seqn ps, s, pr, h => matchSeq_suffix ps s pr (by rw [matchR] at h; exact h)
  | .group p, s, pr, h => by
    rw [matchR] at h
    simp only [List.mem_map] at h
    obtain ⟨pr', hin, he⟩ := h
    have := matchR_suffix p s pr' hin
    rw [← he]
    exact this
  | .star q, s, pr, h => by
    rw [matchR] at h
    unfold starOpts at h
    simp only [List.mem_map] at h
    obtain ⟨k, _, he⟩ := h
    rw [← he]
    exact List.drop_suffix _ _
  | .eos, s, pr, h => by
    cases s with
    | nil =>
      simp [matchR] at h
      subst h
      exact List.nil_suffix
    | cons c t => simp [matchR] at h

theorem matchAlt_suffix : ∀ (ps : List RPat) (s : List Char) (pr : List String × List Char),
    pr ∈ matchAlt ps s → pr.2 <:+ s
  | [], _, _, h => by cases h
  | p :: ps, s, pr, h => by
    rw [matchAlt] at h
    rcases List.mem_append.mp h with h1 | h1
    · exact matchR_suffix p s pr h1
    · exact matchAlt_suffix ps s pr h1

theorem matchSeq_suffix : ∀ (ps : List RPat) (s : List Char) (pr : List String × List Char),
    pr ∈ matchSeq ps s → pr.2 <:+ s
  | [], s, pr, h => by
    simp [matchSeq] at h
    subst h
    exact List.suffix_refl s
  | p :: ps, s, pr, h => by
    rw [matchSeq] at h
    simp only [List.mem_flatMap, List.mem_map] at h
    obtain ⟨pr1, hin1, qr, hin2, he⟩ := h
    have h2 := matchSeq_suffix ps pr1.2 qr hin2
    have h1 := matchR_suffix p s pr1 hin1
    rw [← he]
    exact h2.trans h1

end

theorem allDigits_suffix {s t : List Char} (h : AllDigits s) (hs : t <:+ s) : AllDigits t :=
  fun c hc => h c (hs.subset hc)

theorem matchR_cls_nonDigit_fail (q : Char → Bool) (hq : ∀ c, c.isDigit = true → q c = false)
    (s : List Char) (h : AllDigits s) : matchR (.cls q) s = [] := by
  cases s with
  | nil => rw [matchR]
  | cons c t =>
    rw [matchR, if_neg]
    rw [hq c (h c (List.mem_cons_self c t))]
    simp

theorem matchR_lit_nonDigit_fail (c0 : Char) (l : List Char) (hc : c0.isDigit = false)
    (s : List Char) (h : AllDigits s) : matchR (.lit (c0 :: l)) s = [] := by
  rw [matchR, if_neg]
  cases s with
  | nil => simp [List.isPrefixOf]
  | cons a t =>
    have ha := h a (List.mem_cons_self a t)
    have : (c0 == a) = false := by
      cases hbe : c0 == a with
      | false => rfl
      | true =>
        rw [beq_iff_eq] at hbe
        rw [hbe, ha] at hc
        cases hc
    simp [List.isPrefixOf, this]

theorem matchSeq_head_fail (p : RPat) (ps : List RPat) (s : List Char)
    (h : matchR p s = []) : matchSeq (p :: ps) s = [] := by
  rw [matchSeq, h]
  rfl

theorem matchSeq_second_fail (p : RPat) (q : RPat) (ps : List RPat) (s : List Char)
    (h : ∀ pr ∈ matchR p s, matchSeq (q :: ps) pr.2 = []) :
    matchSeq (p :: q :: ps) s = [] := by
  rw [matchSeq]
  rw [List.flatMap_eq_nil_iff]
  intro pr hpr
  rw [h pr hpr]
  rfl

/-- The era markers fail on an all-digit string. -/
theorem marker_fail (era : Era) (s : List Char) (h : AllDigits s) (hne : era ≠ .w) :
    matchR (datePat era) s = [] := by
  have hlit : ∀ (c0 : Char) (l : List Char), c0.isDigit = false →
      matchR (.lit (c0 :: l)) s = [] := fun c0 l hc => matchR_lit_nonDigit_fail c0 l hc s h
  cases era with
  | w => exact absurd rfl hne
  | r =>
    rw [datePat, matchR]
    apply matchSeq_head_fail
    rw [markerR, matchR, matchR, matchAlt, matchAlt, matchAlt, matchAlt]
    rw [show ("令和".data : List Char) = '令' :: "和".data from rfl,
      show ("合和".data : List Char) = '合' :: "和".data from rfl,
      show ("令".data : List Char) = ['令'] from rfl]
    rw [hlit '令' "和".data (by decide), hlit '合' "和".data (by decide),
      hlit '令' [] (by decide)]
    rfl
  | h =>
    rw [datePat, matchR]
    apply matchSeq_head_fail
    rw [markerH, matchR, matchR, matchAlt, matchAlt, matchAlt, matchAlt]
    rw [show ("平成".data : List Char) = '平' :: "成".data from rfl,
      show ("平".data : List Char) = ['平'] from rfl,
      show ("成".data : List Char) = ['成'] from rfl]
    rw [hlit '平' "成".data (by decide), hlit '平' [] (by decide), hlit '成' [] (by decide)]
    rfl
  | s =>
    rw [datePat, matchR]
    apply matchSeq_head_fail
    rw [markerS, matchR, matchR, matchAlt, matchAlt, matchAlt]
    rw [show ("昭和".data : List Char) = '昭' :: "和".data from rfl,
      show ("昭".data : List Char) = ['昭'] from rfl]
    rw [hlit '昭' "和".data (by decide), hlit '昭' [] (by decide)]
    rfl
  | t =>
    rw [datePat, matchR]
    apply matchSeq_head_fail
    rw [markerT, matchR, matchR, matchAlt, matchAlt, matchAlt, matchAlt]
    rw [show ("大正".data : List Char) = '大' :: "正".data from rfl,
      show ("大".data : List Char) = ['大'] from rfl,
      show ("正".data : List Char) = ['正'] from rfl]
    rw [hlit '大' "正".data (by decide), hlit '大' [] (by decide), hlit '正' [] (by decide)]
    rfl
  | m =>
    rw [datePat, matchR]
    apply matchSeq_head_fail
    rw [markerM, matchR, matchR, matchAlt, matchAlt, matchAlt, matchAlt]
    rw [show ("明治".data : List Char) = '明' :: "治".data from rfl,
      show ("明".data : List Char) = ['明'] from rfl,
      show ("治".data : List Char) = ['治'] from rfl]
    rw [hlit '明' "治".data (by decide), hlit '明' [] (by decide), hlit '治' [] (by decide)]
    rfl

/-- The western pattern fails on an all-digit string: after the year the
`[\D-]{1,3}` separator demands a non-digit. -/
theorem datePat_w_fail (s : List Char) (h : AllDigits s) :
    matchR (datePat .w) s = [] := by
  rw [datePat, matchR]
  simp only [monthDatePats, List.cons_append, List.nil_append]
  apply matchSeq_second_fail
  intro pr hpr
  have hsuf : pr.2 <:+ s := matchR_suffix _ s pr hpr
  have hd : AllDigits pr.2 := allDigits_suffix h hsuf
  apply matchSeq_head_fail
  rw [sepG1, matchR]
  have : matchSeq [RPat.cls clNonDDash, optP clNonDDash, optP clNonDDash] pr.2 = [] := by
    apply matchSeq_head_fail
    apply matchR_cls_nonDigit_fail
    · intro c hc
      unfold clNonDDash
      rw [hc]
      have : (c = '-') = False := by
        simp only [eq_iff_iff, iff_false]
        intro he
        rw [he] at hc
        cases hc
      simp [this]
    · exact hd
  rw [matchR, this]
  rfl

theorem datePat_fail (era : Era) (s : List Char) (h : AllDigits s) :
    matchR (datePat era) s = [] := by
  by_cases hw : era = .w
  · rw [hw]
    exact datePat_w_fail s h
  · exact marker_fail era s h hw

theorem refindallGo_fail (p : RPat) (hfail : ∀ s, AllDigits s → matchR p s = []) :
    ∀ (fuel : Nat) (s : List Char), AllDigits s → refindallGo p fuel s = []
  | 0, _, _ => rfl
  | fuel+1, [], _ => by
    rw [refindallGo, hfail [] (by intro c hc; cases hc)]
  | fuel+1, c :: t, h => by
    rw [refindallGo, hfail (c :: t) h]
    exact refindallGo_fail p hfail fuel t (allDigits_tail h)

theorem refindall_fail (p : RPat) (hfail : ∀ s, AllDigits s → matchR p s = [])
    (s : List Char) (h : AllDigits s) : refindall p s = [] :=
  refindallGo_fail p hfail _ s h

/-- `get_date` finds nothing in an all-digit string: the cleanup is the
identity there and every DATE pattern demands a non-digit somewhere before
the day field. -/
theorem get_date_allDigits (s : String) (h : AllDigits s.data) : get_date s = [] := by
  unfold get_date
  rw [clean_date_allDigits_id s h]
  have hf : ∀ era, refindall (datePat era) s.data = [] :=
    fun era => refindall_fail _ (datePat_fail era) s.data h
  rw [show eraOrder = [.r, .h, .s, .t, .m, .w] from rfl]
  simp only [List.foldl]
  rw [hf .r, hf .h, hf .s, hf .t, hf .m, hf .w]
  rfl

/-- C6, amended: for every CalendarDate rendered in the canonical 8-digit
form, `get_date` returns no dates at all — the round-trip law fails for
every valid input because the parser requires non-digit year/month and
month/day separators. -/
theorem c6_amended (y m d : Nat) : get_date (canonicalStr y m d) = [] :=
  get_date_allDigits _ (canonicalStr_allDigits y m d)

/-! ## C1, general form: the NMS pass never removes anything -/

/-- Every candidate in every cell of role `r`'s row carries `r` as its
allocation role — true of `buildDatesAll` output by construction. -/
def RidOk (da : RoleMap (List (List Cand))) : Prop :=
  ∀ r : Role, ∀ cell ∈ da.get r, ∀ c ∈ cell, c.rid = r

theorem buildCells_ridOk (exf : String → List PyDate) (r : Role) (scores : List Nat)
    (cuts : List String) : ∀ cell ∈ buildCells exf r scores cuts, ∀ c ∈ cell, c.rid = r := by
  intro cell hcell c hc
  unfold buildCells at hcell
  simp only [List.mem_map] at hcell
  obtain ⟨i, _, he⟩ := hcell
  rw [← he] at hc
  split at hc
  · simp only [List.mem_map] at hc
    obtain ⟨pd, _, he2⟩ := hc
    rw [← he2]
  · cases hc

theorem buildDatesAll_ridOk (exf : String → List PyDate) (sc : RoleMap (List Nat))
    (cuts : RoleMap (List String)) : RidOk (buildDatesAll exf sc cuts) := by
  intro r
  cases r <;> exact buildCells_ridOk exf _ _ _

theorem getD_mem_of_lt {α : Type} (l : List α) (i : Nat) (d : α) (h : i < l.length) :
    l.getD i d ∈ l := by
  rw [List.getD_eq_getElem?_getD, List.getElem?_eq_getElem h]
  exact List.getElem_mem h

theorem nmsFilter_id (cells keep : List (List Cand))
    (h : ∀ i, ∀ d1 ∈ cells.getD i [], d1 ∉ keep.getD i []) :
    nmsFilter cells keep = cells := by
  induction cells generalizing keep with
  | nil => cases keep <;> rfl
  | cons c ct ih =>
    cases keep with
    | nil => simp [nmsFilter]
    | cons k kt =>
      unfold nmsFilter
      simp only [List.zipWith_cons_cons, List.length_cons, List.drop_succ_cons,
        List.cons_append]
      have h0 := h 0
      simp only [List.getD_cons_zero] at h0
      have hfc : c.filter (fun d1 => decide (d1 ∉ k)) = c := by
        rw [List.filter_eq_self]
        intro a ha
        simpa using h0 a ha
      rw [hfc]
      have ht : nmsFilter ct kt = ct := by
        apply ih
        intro i d1 hd1
        have := h (i + 1)
        simp only [List.getD_cons_succ] at this
        exact this d1 hd1
      unfold nmsFilter at ht
      rw [ht]

theorem RoleMap.set_get_self {α : Type} (m : RoleMap α) (r : Role) :
    m.set r (m.get r) = m := by
  cases r <;> rfl

theorem nms_inner_id (da : RoleMap (List (List Cand))) (keep : Role) (hrid : RidOk da) :
    roleOrder.foldl (fun da key =>
      if key = keep then da
      else if (da.get key).isEmpty then da
      else da.set key (nmsFilter (da.get key) (da.get keep))) da = da := by
  have hstep : ∀ key,
      (if key = keep then da
        else if (da.get key).isEmpty then da
        else da.set key (nmsFilter (da.get key) (da.get keep))) = da := by
    intro key
    by_cases hk : key = keep
    · rw [if_pos hk]
    · rw [if_neg hk]
      by_cases he : (da.get key).isEmpty
      · rw [if_pos he]
      · rw [if_neg he]
        have hid : nmsFilter (da.get key) (da.get keep) = da.get key := by
          apply nmsFilter_id
          intro i d1 hd1 hmem
          have hlt : i < (da.get key).length := by
            by_contra hge
            rw [List.getD_eq_getElem?_getD, List.getElem?_eq_none (by omega)] at hd1
            cases hd1
          have hltk : i < (da.get keep).length := by
            by_contra hge
            rw [List.getD_eq_getElem?_getD, List.getElem?_eq_none (by omega)] at hmem
            cases hmem
          have h1 : d1.rid = key := hrid key _ (getD_mem_of_lt _ i [] hlt) d1 hd1
          have h2 : d1.rid = keep := hrid keep _ (getD_mem_of_lt _ i [] hltk) d1 hmem
          exact hk (h1.symm.trans h2)
        rw [hid, RoleMap.set_get_self]
  rw [show roleOrder = [.Birthday, .YukoEdYmd, .YukoStYmd, .KofuYmd] from rfl]
  simp only [List.foldl]
  rw [hstep .Birthday, hstep .YukoEdYmd, hstep .YukoStYmd, hstep .KofuYmd]

theorem nmsLine_id (sc : RoleMap (List Nat)) (da : RoleMap (List (List Cand))) (i : Nat)
    (hrid : RidOk da) : nmsLine sc da i = da := by
  unfold nmsLine
  cases hcl : nmsClaim sc i with
  | mk a b =>
    cases a with
    | none => cases b <;> rfl
    | some keep =>
      cases b with
      | false => rfl
      | true => exact nms_inner_id da keep hrid

/-- C1, general no-op: on the candidate table `buildDatesAll` constructs,
the whole suppression pass (`finders/date.py:113-132`) is the identity —
the identity-based membership test never fires because candidates in
different cells are distinct objects. -/
theorem nms_noop (n : Nat) (sc : RoleMap (List Nat)) (exf : String → List PyDate)
    (cuts : RoleMap (List String)) :
    nmsPass n sc (buildDatesAll exf sc cuts) = buildDatesAll exf sc cuts := by
  unfold nmsPass
  induction List.range n with
  | nil => rfl
  | cons b t ih =>
    rw [List.foldl_cons, nmsLine_id sc _ b (buildDatesAll_ridOk exf sc cuts)]
    exact ih

end Ocr2
